import Mathlib

/-!
Verification of the `uri` Go package (an RFC 3986 URI parser, validator and
builder) against its natural-language specification.

The embedding works on Go strings represented as lists of bytes
(`Str := List Nat`), mirrors the source functions of `uri.go`, `decode.go`,
`dns.go` and `builder.go` branch by branch, and models Go errors by the list
of sentinel error kinds joined into them (callers only ever test sentinel
identity through `errors.Is`).

Loops over strings are translated to structural recursion over the remaining
suffix of the string; an index `i` into `s` becomes the suffix `s.drop i`, and
`i += size` becomes `List.drop (size - 1) rest` on the tail `rest` (every
decode step consumes at least one byte, so the two views agree).

The Unicode character classes `unicode.IsLetter` / `unicode.IsDigit` from the
Go standard library are embedded exactly on the Latin-1 range (Go's
`properties` table); behaviour above U+00FF is a parameter
(`HighRuneClasses`) that theorems quantify over, so every statement holds for
the real Unicode tables in particular.
-/

namespace GoUri

/-- A Go string: a list of bytes.  (Values ≥ 256 never arise from real Go
strings; all embedded code rejects them the same way it rejects stray
continuation bytes.) -/
abbrev Str := List Nat

-- A Unicode code point, as produced by Go's `utf8.DecodeRune`, is a plain
-- `Nat` here.

/-- `utf8.RuneError` (U+FFFD). -/
def runeError : Nat := 0xFFFD

/-- `utf8.UTFMax`. -/
def utfMax : Nat := 4

-- char and string literals from uri.go
def colonMark : Nat := 0x3A
def questionMark : Nat := 0x3F
def fragmentMark : Nat := 0x23
def percentMark : Nat := 0x25
def atHost : Nat := 0x40
def slashMark : Nat := 0x2F
def openingBracketMark : Nat := 0x5B
def closingBracketMark : Nat := 0x5D
def dotSeparator : Nat := 0x2E

/-- The literal `"//"` (`authorityPrefix` in uri.go; renamed because of a
lexical restriction on names in this development). -/
def authorityPfx : Str := [0x2F, 0x2F]

-- DNS name constants from uri.go
def maxSegmentLength : Nat := 63
def maxDomainLength : Nat := 255

/-- UTF-8 encoding of one Unicode scalar value (the byte sequence
`utf8.EncodeRune` would produce for a valid rune); also used to build byte
strings from Lean string literals. -/
def utf8Encode (r : Nat) : List Nat :=
  if r < 0x80 then [r]
  else if r < 0x800 then [0xC0 + r / 0x40, 0x80 + r % 0x40]
  else if r < 0x10000 then
    [0xE0 + r / 0x1000, 0x80 + (r / 0x40) % 0x40, 0x80 + r % 0x40]
  else
    [0xF0 + r / 0x40000, 0x80 + (r / 0x1000) % 0x40,
      0x80 + (r / 0x40) % 0x40, 0x80 + r % 0x40]

/-- Convert a Lean string literal to the byte list of the corresponding Go
string (UTF-8 bytes). -/
def mkStr (s : String) : Str :=
  (s.data.map (fun c => utf8Encode c.toNat)).flatten

/-- A valid Unicode scalar value: in range and not a surrogate. -/
def IsValidScalar (r : Nat) : Prop := r < 0x110000 ∧ ¬(0xD800 ≤ r ∧ r ≤ 0xDFFF)

instance (r : Nat) : Decidable (IsValidScalar r) := by
  unfold IsValidScalar; infer_instance

/-!  ### Go `unicode/utf8.DecodeRune` / `DecodeRuneInString`

Returns `(runeError, 0)` on empty input, `(runeError, 1)` on any malformed
encoding (invalid lead byte, missing or out-of-range continuation bytes,
overlong forms, surrogates), and otherwise the decoded rune together with the
number of bytes it occupies.  This is exactly the Go implementation's
case analysis driven by the lead byte's accept-range table. -/
/-- Two-byte sequences (`b0` in `C2..DF`): one continuation byte in
`80..BF`. -/
def utf8Decode2 (b0 : Nat) : Str → Nat × Nat
  | b1 :: _ =>
    if 0x80 ≤ b1 ∧ b1 ≤ 0xBF then ((b0 - 0xC0) * 0x40 + (b1 - 0x80), 2)
    else (runeError, 1)
  | _ => (runeError, 1)

/-- Three-byte sequences (`b0` in `E0..EF`): the first continuation byte's
accept range depends on the lead (no overlong forms, no surrogates). -/
def utf8Decode3 (b0 : Nat) : Str → Nat × Nat
  | b1 :: b2 :: _ =>
    if ((if b0 = 0xE0 then 0xA0 else 0x80) ≤ b1 ∧
        b1 ≤ (if b0 = 0xED then 0x9F else 0xBF)) ∧
        (0x80 ≤ b2 ∧ b2 ≤ 0xBF) then
      ((b0 - 0xE0) * 0x1000 + (b1 - 0x80) * 0x40 + (b2 - 0x80), 3)
    else (runeError, 1)
  | _ => (runeError, 1)

/-- Four-byte sequences (`b0` in `F0..F4`): the first continuation byte's
accept range depends on the lead (no overlong forms, nothing above
U+10FFFF). -/
def utf8Decode4 (b0 : Nat) : Str → Nat × Nat
  | b1 :: b2 :: b3 :: _ =>
    if ((if b0 = 0xF0 then 0x90 else 0x80) ≤ b1 ∧
        b1 ≤ (if b0 = 0xF4 then 0x8F else 0xBF)) ∧
        (0x80 ≤ b2 ∧ b2 ≤ 0xBF) ∧ (0x80 ≤ b3 ∧ b3 ≤ 0xBF) then
      ((b0 - 0xF0) * 0x40000 + (b1 - 0x80) * 0x1000 + (b2 - 0x80) * 0x40 +
        (b3 - 0x80), 4)
    else (runeError, 1)
  | _ => (runeError, 1)

/-- Dispatch on the lead byte. -/
def utf8DecodeCont (b0 : Nat) (rest : Str) : Nat × Nat :=
  if b0 < 0x80 then (b0, 1)
  else if b0 < 0xC2 then (runeError, 1)
  else if b0 < 0xE0 then utf8Decode2 b0 rest
  else if b0 < 0xF0 then utf8Decode3 b0 rest
  else if b0 < 0xF5 then utf8Decode4 b0 rest
  else (runeError, 1)

def utf8DecodeRune : Str → Nat × Nat
  | [] => (runeError, 0)
  | b0 :: rest => utf8DecodeCont b0 rest

/-!  ### Go string primitives -/

/-- `strings.IndexByte`: index of the first occurrence of byte `c`, `-1` if
absent. -/
def indexByte (s : Str) (c : Nat) : Int :=
  match s.findIdx? (· == c) with
  | some n => (n : Int)
  | none => -1

/-- Go slicing `s[i:j]` (callers only use it with `0 ≤ i ≤ j ≤ len s`). -/
def substr (s : Str) (i j : Int) : Str :=
  (s.drop i.toNat).take (j.toNat - i.toNat)

/-- Go slicing `s[i:]`. -/
def substrFrom (s : Str) (i : Int) : Str := s.drop i.toNat

/-- Go slicing `s[:j]`. -/
def substrTo (s : Str) (j : Int) : Str := s.take j.toNat

/-- `strings.HasPrefix`. -/
def hasPfx (s pre : Str) : Bool := pre.isPrefixOf s

/-- `strings.TrimPrefix`. -/
def trimPfx (s pre : Str) : Str := if hasPfx s pre then s.drop pre.length else s

/-!  ### Error model

A Go error value is represented by the list of sentinel error kinds present
in its `errors.Join` tree, in join order.  `fmt.Errorf` causes contribute no
kind.  `errors.Is e k` is membership of `k` in that list. -/

inductive ErrKind where
  | invalidURI
  | noSchemeFound
  | invalidScheme
  | invalidHost
  | invalidDNSName
  | invalidRegisteredName
  | invalidHostAddress
  | invalidPort
  | missingHost
  | invalidPath
  | invalidQuery
  | invalidFragment
  | invalidUserInfo
  | invalidEscaping
deriving DecidableEq, Repr

/-- An error value: the sentinel kinds joined into it. -/
structure Err where
  kinds : List ErrKind
deriving DecidableEq, Repr

/-- A sentinel error such as `ErrInvalidURI`. -/
def sentinel (k : ErrKind) : Err := ⟨[k]⟩

/-- A `fmt.Errorf` cause: carries no sentinel kind. -/
def plainErr : Err := ⟨[]⟩

/-- `errorsJoin` from the source (`errors.Join`). -/
def errorsJoin (a b : Err) : Err := ⟨a.kinds ++ b.kinds⟩

/-- `errors.Is e (sentinel k)`. -/
def Err.is (e : Err) (k : ErrKind) : Bool := e.kinds.contains k

def errInvalidURI : Err := sentinel .invalidURI
def errNoSchemeFound : Err := sentinel .noSchemeFound
def errInvalidScheme : Err := sentinel .invalidScheme
def errInvalidHost : Err := sentinel .invalidHost
def errInvalidDNSName : Err := sentinel .invalidDNSName
def errInvalidRegisteredName : Err := sentinel .invalidRegisteredName
def errInvalidHostAddress : Err := sentinel .invalidHostAddress
def errInvalidPort : Err := sentinel .invalidPort
def errMissingHost : Err := sentinel .missingHost
def errInvalidPath : Err := sentinel .invalidPath
def errInvalidQuery : Err := sentinel .invalidQuery
def errInvalidFragment : Err := sentinel .invalidFragment
def errInvalidUserInfo : Err := sentinel .invalidUserInfo
def errInvalidEscaping : Err := sentinel .invalidEscaping

/-!  ### Character classifiers from decode.go -/

/-- `isHex` (decode.go). -/
def isHex (c : Nat) : Bool :=
  (c ≥ 0x30 && c ≤ 0x39) || (0x61 ≤ c && c ≤ 0x66) || (0x41 ≤ c && c ≤ 0x46)

/-- `isDigit` (decode.go). -/
def isDigit (c : Nat) : Bool := c ≥ 0x30 && c ≤ 0x39

/-- `isNotDigit` (decode.go). -/
def isNotDigit (c : Nat) : Bool := c < 0x30 || c > 0x39

/-- `isASCIILetter` (decode.go). -/
def isASCIILetter (c : Nat) : Bool :=
  (0x61 ≤ c && c ≤ 0x7A) || (0x41 ≤ c && c ≤ 0x5A)

/-- `unhex` (decode.go). -/
def unhex (c : Nat) : Nat :=
  if 0x30 ≤ c ∧ c ≤ 0x39 then c - 0x30
  else if 0x61 ≤ c ∧ c ≤ 0x66 then c - 0x61 + 10
  else if 0x41 ≤ c ∧ c ≤ 0x46 then c - 0x41 + 10
  else 0

/-- The rune loop of `isNumerical` (decode.go).  The `fuel` argument bounds
the iteration count to give structural recursion; every iteration consumes
at least one byte, so `s.length + 1` units are always sufficient and the
fuel-exhausted case is unreachable. -/
def isNumericalLoop : Nat → Str → Bool
  | _, [] => true
  | 0, _ :: _ => true
  | fuel + 1, b :: rest =>
    let d := utf8DecodeRune (b :: rest)
    isDigit d.1 && isNumericalLoop fuel (List.drop (d.2 - 1) rest)

/-- `isNumerical` (decode.go): `strings.IndexFunc(input, isNotDigit) == -1`.
`IndexFunc` walks the string rune by rune (malformed bytes decode to
`utf8.RuneError`, which is not a digit). -/
def isNumerical (s : Str) : Bool := isNumericalLoop (s.length + 1) s

/-- `ucschar` range table from decode.go (RFC 3987), embedded exactly. -/
def isUcsChar (r : Nat) : Bool :=
  (0x000A0 ≤ r && r ≤ 0x0D7FF) || (0x0F900 ≤ r && r ≤ 0x0FDCF) ||
  (0x0FDF0 ≤ r && r ≤ 0x0FFEF) ||
  (0x10000 ≤ r && r ≤ 0x1FFFD) || (0x20000 ≤ r && r ≤ 0x2FFFD) ||
  (0x30000 ≤ r && r ≤ 0x3FFFD) || (0x40000 ≤ r && r ≤ 0x4FFFD) ||
  (0x50000 ≤ r && r ≤ 0x5FFFD) || (0x60000 ≤ r && r ≤ 0x6FFFD) ||
  (0x70000 ≤ r && r ≤ 0x7FFFD) || (0x80000 ≤ r && r ≤ 0x8FFFD) ||
  (0x90000 ≤ r && r ≤ 0x9FFFD) || (0xA0000 ≤ r && r ≤ 0xAFFFD) ||
  (0xB0000 ≤ r && r ≤ 0xBFFFD) || (0xC0000 ≤ r && r ≤ 0xCFFFD) ||
  (0xD0000 ≤ r && r ≤ 0xDFFFD) || (0xE1000 ≤ r && r ≤ 0xEFFFD)

/-- `iprivate` range table from decode.go (RFC 3987), embedded exactly. -/
def isIPrivate (r : Nat) : Bool :=
  (0xE000 ≤ r && r ≤ 0xF8FF) || (0xF0000 ≤ r && r ≤ 0xFFFFD) ||
  (0x100000 ≤ r && r ≤ 0x10FFFD)

/-!  ### Go `unicode.IsLetter` / `unicode.IsDigit`

Embedded exactly on the Latin-1 range (Go's `properties` table: the letters
below U+0100 are `A`–`Z`, `a`–`z`, `ª` (U+00AA), `µ` (U+00B5), `º` (U+00BA),
U+00C0–U+00D6, U+00D8–U+00F6 and U+00F8–U+00FF; the only decimal digits are
`0`–`9`).  The behaviour on code points above U+00FF (the large range tables
of the `unicode` package) is kept abstract in a `HighRuneClasses` parameter
that every theorem quantifies over. -/

/-- Letters of the Latin-1 range exactly as in Go's `unicode.properties`
table. -/
def latin1IsLetter (r : Nat) : Bool :=
  isASCIILetter r || r == 0xAA || r == 0xB5 || r == 0xBA ||
  (0xC0 ≤ r && r ≤ 0xD6) || (0xD8 ≤ r && r ≤ 0xF6) || (0xF8 ≤ r && r ≤ 0xFF)

/-- The `unicode` package's classification of code points above U+00FF,
kept abstract. -/
structure HighRuneClasses where
  isLetter : Nat → Bool
  isDigit : Nat → Bool

/-- `unicode.IsLetter`, exact below U+0100. -/
def uniIsLetter (T : HighRuneClasses) (r : Nat) : Bool :=
  if r < 0x100 then latin1IsLetter r else T.isLetter r

/-- `unicode.IsDigit`, exact below U+0100. -/
def uniIsDigit (T : HighRuneClasses) (r : Nat) : Bool :=
  if r < 0x100 then isDigit r else T.isDigit r

/-- An instantiation of the abstract high-rune tables (used by concrete
witnesses, all of which only involve code points below U+0100, where the
embedding is exact and independent of this choice). -/
def noHighRunes : HighRuneClasses := ⟨fun _ => false, fun _ => false⟩

/-!  ### decode.go : percent-decoding -/

/-- `unescapeSequence` (decode.go): read two hex digits into one byte. -/
def unescapeSequence (escapeSequence : Str) : Except Err Nat :=
  match escapeSequence with
  | [] => .error plainErr
  | [_] => .error plainErr
  | c0 :: c1 :: _ =>
    if !isHex c0 || !isHex c1 then .error plainErr
    else .ok (unhex c0 * 16 + unhex c1)

/-- The tail of `unescapePercentEncoding` (decode.go): decode the collected
bytes with `utf8.DecodeRune` and reject `utf8.RuneError` (so a sequence that
legitimately encodes U+FFFD is also reported as an error). -/
def upeFinish (bytes : List Nat) (offset : Nat) : Except Err (Nat × Nat) :=
  if (utf8DecodeRune bytes).1 = runeError then .error plainErr
  else .ok ((utf8DecodeRune bytes).1, offset)

/-- The fourth-group stage of `unescapePercentEncoding` (decode.go):
`s4` is the input after the third group (offset 8); expect `%HH`, collect
`b3`, finish with four bytes at offset 11. -/
def upe4 (b0 b1 b2 : Nat) (s4 : Str) : Except Err (Nat × Nat) :=
  match s4 with
  | [] => .error plainErr
  | c :: rest3 =>
    if c ≠ percentMark then .error plainErr
    else match unescapeSequence rest3 with
    | .error e => .error e
    | .ok b3 => upeFinish [b0, b1, b2, b3] 11

/-- The third-group stage of `unescapePercentEncoding` (decode.go): `s3` is
the input after the second group (offset 5); expect `%HH`, collect `b2`, and
go on to a fourth group when the lead byte demands one (`b0 ≥ 0xF0`). -/
def upe3 (b0 b1 : Nat) (s3 : Str) : Except Err (Nat × Nat) :=
  match s3 with
  | [] => .error plainErr
  | c :: rest2 =>
    if c ≠ percentMark then .error plainErr
    else match unescapeSequence rest2 with
    | .error e => .error e
    | .ok b2 =>
      if b0 ≥ 0xF0 then upe4 b0 b1 b2 (rest2.drop 2)
      else upeFinish [b0, b1, b2] 8

/-- The second-group stage of `unescapePercentEncoding` (decode.go): `s2` is
the input after the first group (offset 2); expect `%HH`, collect `b1`, and
go on to a third group when the lead byte demands one (`b0 ≥ 0xE0`). -/
def upe2 (b0 : Nat) (s2 : Str) : Except Err (Nat × Nat) :=
  match s2 with
  | [] => .error plainErr
  | c :: rest1 =>
    if c ≠ percentMark then .error plainErr
    else match unescapeSequence rest1 with
    | .error e => .error e
    | .ok b1 =>
      if b0 ≥ 0xE0 then upe3 b0 b1 (rest1.drop 2)
      else upeFinish [b0, b1] 5

/-- `unescapePercentEncoding` (decode.go): given input positioned after an
opening `%`, consume 1–4 `%HH` groups (as demanded by the lead byte's UTF-8
class) and decode the collected bytes as a single rune.  Returns the rune and
the number of bytes of `s` consumed, or an error.  Note the final guard
compares the decoded rune against `utf8.RuneError`, so a sequence that
legitimately encodes U+FFFD is also reported as an error. -/
def unescapePercentEncoding (s : Str) : Except Err (Nat × Nat) :=
  match unescapeSequence s with
  | .error e => .error e
  | .ok b0 =>
    -- offset = 2, one byte collected
    if b0 ≥ 0xC0 then upe2 b0 (s.drop 2)
    else upeFinish [b0] 2

/-- The rune loop of `validateUnreservedWithExtra` (decode.go), with a
structural fuel bound (each iteration consumes at least one byte, so
`s.length + 1` units are always sufficient). -/
def uweLoop (T : HighRuneClasses) : Nat → Str → List Nat → Option Err
  | _, [], _ => none
  | 0, _ :: _, _ => none
  | fuel + 1, b :: rest, acceptedRunes =>
    let d := utf8DecodeRune (b :: rest)
    if d.1 = runeError then
      some (errorsJoin errInvalidEscaping plainErr)
    else
      if d.1 = percentMark then
        match List.drop (d.2 - 1) rest with
        | [] => some (errorsJoin errInvalidEscaping plainErr)
        | a :: after' =>
          match unescapePercentEncoding (a :: after') with
          | .error e => some (errorsJoin errInvalidEscaping e)
          | .ok (_, offset) =>
            uweLoop T fuel (List.drop (offset - 1) after') acceptedRunes
      else
        if !uniIsLetter T d.1 && !uniIsDigit T d.1 &&
            d.1 ≠ 0x2D && d.1 ≠ 0x2E && d.1 ≠ 0x5F && d.1 ≠ 0x7E &&
            !isUcsChar d.1 &&
            d.1 ≠ 0x21 && d.1 ≠ 0x24 && d.1 ≠ 0x26 && d.1 ≠ 0x27 &&
            d.1 ≠ 0x28 && d.1 ≠ 0x29 && d.1 ≠ 0x2A && d.1 ≠ 0x2B &&
            d.1 ≠ 0x2C && d.1 ≠ 0x3B && d.1 ≠ 0x3D &&
            !(acceptedRunes.contains d.1) then
          some plainErr
        else
          uweLoop T fuel (List.drop (d.2 - 1) rest) acceptedRunes

/-- `validateUnreservedWithExtra` (decode.go): walk the string one rune at a
time; a malformed byte is `InvalidEscaping`; a `%` dispatches to the
percent-decoder; otherwise the rune must be a letter, digit, unreserved
mark, `ucschar`, sub-delim, or one of the caller's extra runes. -/
def validateUnreservedWithExtra (T : HighRuneClasses) (s : Str)
    (acceptedRunes : List Nat) : Option Err :=
  uweLoop T (s.length + 1) s acceptedRunes

-- predefined extra-rune sets from uri.go
def pcharExtraRunes : List Nat := [colonMark, atHost]
def queryOrFragmentExtraRunes : List Nat :=
  pcharExtraRunes ++ [slashMark, questionMark]
def userInfoExtraRunes : List Nat := pcharExtraRunes ++ [colonMark]

end GoUri

namespace GoUri

/-!  ### dns.go -/

/-- `UsesDNSHostValidation` (dns.go): the package-level default classifier,
a fixed switch over scheme tokens (`"file"` is explicitly `false`, everything
not listed falls through to `false`). -/
def usesDNSHostValidation (scheme : Str) : Bool :=
  if scheme = mkStr "file" then false
  else
    [mkStr "https", mkStr "http",
      mkStr "aaa", mkStr "aaas", mkStr "acap", mkStr "acct",
      mkStr "cap", mkStr "cid",
      mkStr "coap", mkStr "coaps", mkStr "coap+tcp", mkStr "coap+ws",
      mkStr "coaps+tcp", mkStr "coaps+ws",
      mkStr "dav", mkStr "dict", mkStr "dns", mkStr "dntp",
      mkStr "finger", mkStr "ftp", mkStr "git", mkStr "gopher",
      mkStr "h323", mkStr "iax", mkStr "icap", mkStr "im", mkStr "imap",
      mkStr "ipp", mkStr "ipps", mkStr "irc", mkStr "irc6", mkStr "ircs",
      mkStr "jms", mkStr "ldap", mkStr "mailto", mkStr "mid",
      mkStr "msrp", mkStr "msrps", mkStr "nfs", mkStr "nntp", mkStr "ntp",
      mkStr "postgresql", mkStr "radius", mkStr "redis", mkStr "rmi",
      mkStr "rtsp", mkStr "rtsps", mkStr "rtspu", mkStr "rsync",
      mkStr "sftp", mkStr "skype", mkStr "smtp", mkStr "snmp", mkStr "soap",
      mkStr "ssh", mkStr "steam", mkStr "svn", mkStr "tcp", mkStr "telnet",
      mkStr "udp", mkStr "vnc", mkStr "wais", mkStr "ws", mkStr "wss"
      ].contains scheme

/-- `validateFirstRuneInSegment` (dns.go): the first rune of a DNS label,
after optional percent-decoding, must satisfy `unicode.IsLetter`.  Returns
the (decoded) rune and the bytes consumed.  Note the incomplete-escape error
at the very start of a segment carries only `ErrInvalidEscaping` (no
`ErrInvalidDNSName`), unlike every other error of this validator. -/
def validateFirstRuneInSegment (T : HighRuneClasses) (s : Str) :
    Nat × Nat × Option Err :=
  if (utf8DecodeRune s).1 = runeError then
    (runeError, 0, some (errorsJoin errInvalidDNSName plainErr))
  else if (utf8DecodeRune s).1 = dotSeparator then
    (runeError, 0, some (errorsJoin errInvalidDNSName plainErr))
  else if (utf8DecodeRune s).1 = percentMark then
    match s.drop (utf8DecodeRune s).2 with
    | [] => (runeError, 0, some (errorsJoin errInvalidEscaping plainErr))
    | a :: rest =>
      match unescapePercentEncoding (a :: rest) with
      | .error e =>
        (runeError, 0,
          some (errorsJoin errInvalidDNSName (errorsJoin errInvalidEscaping e)))
      | .ok (u, consumed) =>
        if !uniIsLetter T u then
          (runeError, 0, some (errorsJoin errInvalidDNSName plainErr))
        else (u, (utf8DecodeRune s).2 + consumed, none)
  else if !uniIsLetter T (utf8DecodeRune s).1 then
    (runeError, 0, some (errorsJoin errInvalidDNSName plainErr))
  else ((utf8DecodeRune s).1, (utf8DecodeRune s).2, none)

/-- The per-rune checks of the `validateHostSegment` loop (dns.go), after
the current rune `r` (possibly percent-decoded) has been read: dot-separator
handling, the 63-byte limit, the letter/digit/`-` rule.  `none` means the
loop continues. -/
def hostSegCheck (T : HighRuneClasses) (rem : Str) (consumed : Nat)
    (last r : Nat) : Option (Nat × Nat × Option Err) :=
  if r = dotSeparator then
    if rem.isEmpty then
      some (runeError, 0, some (errorsJoin errInvalidDNSName plainErr))
    else if !uniIsLetter T last && !uniIsDigit T last then
      some (runeError, 0, some (errorsJoin errInvalidDNSName plainErr))
    else some (r, consumed, none)
  else if consumed > maxSegmentLength then
    some (runeError, 0, some (errorsJoin errInvalidDNSName plainErr))
  else if !uniIsLetter T r && !uniIsDigit T r && r ≠ 0x2D then
    some (runeError, 0, some (errorsJoin errInvalidDNSName plainErr))
  else none

/-- The loop of `validateHostSegment` (dns.go), operating on the remaining
suffix `rem` with `consumed` bytes already consumed from the segment's
start, `last` the previously decoded rune and `once` whether the loop body
ran.  The structural `fuel` bound is always sufficient at `rem.length + 1`
(each iteration consumes at least one byte). -/
def hostSegLoop (T : HighRuneClasses) :
    Nat → Str → Nat → Nat → Bool → Nat × Nat × Option Err
  | _, [], consumed, last, once =>
    if once && !uniIsLetter T last && !uniIsDigit T last then
      (runeError, 0, some (errorsJoin errInvalidDNSName plainErr))
    else (last, consumed, none)
  | 0, _ :: _, consumed, last, _ => (last, consumed, none)
  | fuel + 1, b :: rest, consumed, last, _ =>
    let d := utf8DecodeRune (b :: rest)
    if d.1 = runeError then
      (runeError, 0, some (errorsJoin errInvalidDNSName plainErr))
    else
      -- once = true; offset += size
      if d.1 = percentMark then
        match List.drop (d.2 - 1) rest with
        | [] =>
          (runeError, 0,
            some (errorsJoin errInvalidDNSName
              (errorsJoin errInvalidEscaping plainErr)))
        | a :: after' =>
          match unescapePercentEncoding (a :: after') with
          | .error e =>
            (runeError, 0,
              some (errorsJoin errInvalidDNSName
                (errorsJoin errInvalidEscaping e)))
          | .ok (u, sz) =>
            match hostSegCheck T (List.drop (sz - 1) after')
                (consumed + d.2 + sz) last u with
            | some res => res
            | none =>
              hostSegLoop T fuel (List.drop (sz - 1) after')
                (consumed + d.2 + sz) u true
      else
        match hostSegCheck T (List.drop (d.2 - 1) rest) (consumed + d.2)
            last d.1 with
        | some res => res
        | none =>
          hostSegLoop T fuel (List.drop (d.2 - 1) rest) (consumed + d.2)
            d.1 true

/-- `validateHostSegment` (dns.go): validate one DNS label (which may end at
a possibly percent-encoded `.` separator); returns the last rune read and the
bytes consumed. -/
def validateHostSegment (T : HighRuneClasses) (s : Str) :
    Nat × Nat × Option Err :=
  match validateFirstRuneInSegment T s with
  | (_, _, some e) => (runeError, 0, some e)
  | (last, offset, none) =>
    hostSegLoop T ((s.drop offset).length + 1) (s.drop offset) offset last
      false

/-- The segment loop of `validateDNSHostForScheme` (dns.go).  The `fuel`
argument bounds the iteration count (the source's `for` loop advances by
`consumed ≥ 1` bytes whenever it continues, so `host.length + 1` units of
fuel make this equal to the source loop). -/
def dnsSegsLoop (T : HighRuneClasses) : Nat → Str → Option Err
  | 0, _ => none
  | fuel + 1, rem =>
    if rem.isEmpty then none
    else
      match validateHostSegment T rem with
      | (_, _, some e) => some e
      | (last, consumed, none) =>
        if last ≠ dotSeparator then none
        else dnsSegsLoop T fuel (rem.drop consumed)

/-- `validateDNSHostForScheme` (dns.go): RFC 1035 host validation, label by
label, with byte-length limits of 255 for the host and 63 per label. -/
def validateDNSHostForScheme (T : HighRuneClasses) (host : Str) : Option Err :=
  if host.length > maxDomainLength then
    some (errorsJoin errInvalidDNSName plainErr)
  else if host.length = 0 then
    some (errorsJoin errInvalidDNSName plainErr)
  else dnsSegsLoop T (host.length + 1) host

end GoUri

namespace GoUri

/-!  ### IP validators

The file `ip.go` of the repository is not part of the provided sources (only
its callers in `uri.go` are), so the three validators below are modelled from
the specification (§4.5 and §4.6).  Their errors are discarded or wrapped by
the callers, so they carry no sentinel kinds of their own. -/

/-- Split a byte string at every occurrence of byte `b`. -/
def splitOnByte (b : Nat) : Str → List Str
  | [] => [[]]
  | c :: rest =>
    match splitOnByte b rest with
    | [] => [[c]]
    | h :: t => if c = b then [] :: h :: t else (c :: h) :: t

/-- Numeric value of an ASCII-digit string. -/
def natOfDigits (s : Str) : Nat := s.foldl (fun a c => a * 10 + (c - 0x30)) 0

/-- Modelled from the spec: `validateIPv4` (ip.go, absent from the provided
sources).  A strict dotted quad: exactly four octets separated by single
`.`; each octet 1–3 ASCII decimal digits, value 0–255, no leading zero
unless the octet is the single digit `0`; percent-encoding (or any other
character) is not permitted. -/
def validateIPv4 (host : Str) : Option Err :=
  let parts := splitOnByte dotSeparator host
  if parts.length ≠ 4 then some plainErr
  else if parts.all (fun p =>
      decide (1 ≤ p.length) && decide (p.length ≤ 3) && p.all isDigit &&
      decide (natOfDigits p ≤ 255) &&
      (decide (p.length = 1) || decide (p.headD 0 ≠ 0x30))) then
    none
  else some plainErr

/-- An unreserved byte per RFC 3986 (ASCII letter, digit, `-`, `.`, `_`,
`~`). -/
def isUnreservedByte (c : Nat) : Bool :=
  isASCIILetter c || isDigit c || c == 0x2D || c == 0x2E || c == 0x5F ||
  c == 0x7E

/-- A sub-delims byte per RFC 3986. -/
def isSubDelimByte (c : Nat) : Bool :=
  c == 0x21 || c == 0x24 || c == 0x26 || c == 0x27 || c == 0x28 ||
  c == 0x29 || c == 0x2A || c == 0x2B || c == 0x2C || c == 0x3B || c == 0x3D

/-- One group of an IPv6 address: 1–4 hex digits. -/
def isHexGroup (p : Str) : Bool :=
  decide (1 ≤ p.length) && decide (p.length ≤ 4) && p.all isHex

/-- Group count of the pieces of an IPv6 address between colons, where a
trailing dotted-quad IPv4 tail counts as two groups.  `none` when some piece
is neither a hex group nor a valid final IPv4 tail. -/
def ipv6GroupCount : List Str → Option Nat
  | [] => some 0
  | [p] =>
    if isHexGroup p then some 1
    else if validateIPv4 p = none then some 2
    else none
  | p :: rest =>
    if isHexGroup p then (ipv6GroupCount rest).map (· + 1) else none

/-- Modelled from the spec: the address-literal part of `validateIPv6`
(ip.go, absent from the provided sources; the source delegates to
`netip.ParseAddr`).  Accepts canonical IPv6: eight 1–4-digit hex groups
separated by `:`, a single `::` elision standing for one or more zero
groups, and an optional embedded dotted-quad IPv4 tail counting as two
groups. -/
def parseIPv6Literal (s : Str) : Bool :=
  if s.isEmpty then false
  else
    let parts := splitOnByte colonMark s
    -- empty parts arise from a leading `:`, a trailing `:` or a `::`
    let emptyIdx := (List.range parts.length).filter
      (fun i => (parts.getD i [0]).isEmpty)
    match emptyIdx with
    | [] =>
      -- no elision: exactly 8 groups
      ipv6GroupCount parts = some 8
    | [i] =>
      -- one `::` in the middle: parts = pre ++ [""] ++ suf, both sides
      -- nonempty group lists
      decide (0 < i) && decide (i + 1 < parts.length) &&
      (match ipv6GroupCount (parts.take i),
          ipv6GroupCount (parts.drop (i + 1)) with
      | some a, some b => decide (a + b < 8)
      | _, _ => false)
    | [i, j] =>
      -- `::` at the very start (parts begins "","") or the very end
      if i = 0 ∧ j = 1 then
        match ipv6GroupCount (parts.drop 2) with
        | some b => decide (b < 8) && decide (parts.length ≥ 3)
        | none => false
      else if j = i + 1 ∧ j = parts.length - 1 then
        match ipv6GroupCount (parts.take i) with
        | some a => decide (a < 8) && decide (i ≥ 1)
        | none => false
      else false
    | [i, j, k] =>
      -- `::` alone: parts = ["", "", ""]
      decide (i = 0) && decide (j = 1) && decide (k = 2) &&
      decide (parts.length = 3)
    | _ => false

/-- One byte position of a zone identifier: unreserved bytes and
percent-escapes of unreserved characters. -/
def zoneOk : Str → Bool
  | [] => true
  | c :: rest =>
    if c = percentMark then
      match rest with
      | h1 :: h2 :: rest' =>
        isHex h1 && isHex h2 && isUnreservedByte (unhex h1 * 16 + unhex h2) &&
        zoneOk rest'
      | _ => false
    else isUnreservedByte c && zoneOk rest

/-- Modelled from the spec: `validateIPv6` (ip.go, absent from the provided
sources).  Split the bracket contents at the first `%25` (the RFC 6874 zone
introducer); a bare `%` not starting `%25` is illegal, and no percent-escape
may occur inside the address literal itself.  The address must be a valid
IPv6 literal and the zone must be non-empty and consist of unreserved
characters or percent-escapes of unreserved characters. -/
def validateIPv6 (host : Str) : Option Err :=
  match indexByte host percentMark with
  | -1 => if parseIPv6Literal host then none else some plainErr
  | i =>
    let addr := substrTo host i
    let intro := substr host i (i + 3)
    let zone := substrFrom host (i + 3)
    if intro ≠ mkStr "%25" then some plainErr
    else if !parseIPv6Literal addr then some plainErr
    else if zone.isEmpty then some plainErr
    else if zoneOk zone then none
    else some plainErr

/-- Modelled from the spec: `validateIPvFuture` (ip.go, absent from the
provided sources).  Receives the bracket contents after the leading `v`/`V`:
one or more hex digits, a `.`, then one or more characters from unreserved ∪
sub-delims ∪ `:`. -/
def validateIPvFuture (s : Str) : Option Err :=
  match indexByte s dotSeparator with
  | -1 => some plainErr
  | di =>
    let version := substrTo s di
    let addr := substrFrom s (di + 1)
    if version.isEmpty then some plainErr
    else if !version.all isHex then some plainErr
    else if addr.isEmpty then some plainErr
    else if addr.all (fun c =>
        isUnreservedByte c || isSubDelimByte c || c == colonMark) then none
    else some plainErr

end GoUri

namespace GoUri

/-!  ### Options (options.go)

Only the fields consulted by the embedded code paths are carried:
`withURIReference` and the `validationFlags` bit set.  The option pool is a
allocation-reuse device with no semantic content; applying an option list
folds the option functions over the package-level defaults. -/

structure Options where
  withURIReference : Bool
  validationFlags : Nat
deriving DecidableEq, Repr

def flagValidateScheme : Nat := 1
def flagValidateHost : Nat := 2
def flagValidatePort : Nat := 4
def flagValidateUserInfo : Nat := 8
def flagValidatePath : Nat := 16
def flagValidateQuery : Nat := 32
def flagValidateFragment : Nat := 64

/-- `o.validationFlags&flag > 0`. -/
def hasFlag (o : Options) (flag : Nat) : Bool := o.validationFlags &&& flag > 0

def packageLevelDefaults : Options :=
  { withURIReference := false, validationFlags := 65535 }

def packageLevelReferenceDefaults : Options :=
  { withURIReference := true, validationFlags := 65535 }

/-- An `Option` of the source: a mutation of the options struct. -/
abbrev OptionFn := Options → Options

def applyURIOptions (opts : List OptionFn) : Options :=
  opts.foldl (fun o f => f o) packageLevelDefaults

def applyURIReferenceOptions (opts : List OptionFn) : Options :=
  opts.foldl (fun o f => f o) packageLevelReferenceDefaults

/-- `withValidationFlags` (options.go). -/
def withValidationFlags (flags : Nat) : OptionFn :=
  fun o => { o with validationFlags := flags }

/-- `WithReference` (options.go). -/
def withReferenceOption (enabled : Bool) : OptionFn :=
  fun o => { o with withURIReference := enabled }

/-!  ### The URI value (uri.go) -/

/-- `ipType`: tags assigned by host validation. -/
structure IpType where
  isIPv6 : Bool := false
  isIPvFuture : Bool := false
  isIPv4 : Bool := false
deriving DecidableEq, Repr

/-- `Authority` (uri.go).  The field `pfx` is the source's authority prefix
field (either empty or the literal `//`); it is renamed here because of a
lexical restriction on names in this development. -/
structure Authority where
  err : Option Err := none
  pfx : Str := []
  userinfo : Str := []
  host : Str := []
  port : Str := []
  path : Str := []
  ip : IpType := {}
deriving DecidableEq, Repr

/-- `URI` (uri.go). -/
structure URI where
  err : Option Err := none
  scheme : Str := []
  hierPart : Str := []
  query : Str := []
  fragment : Str := []
  authority : Authority := {}
deriving DecidableEq, Repr

/-- `URI.Err`. -/
def URI.errOf (u : URI) : Option Err := u.err

/-- `Authority.Err`. -/
def Authority.errOf (a : Authority) : Option Err := a.err

/-!  ### Component validators (uri.go) -/

/-- `URI.validateScheme` (uri.go): `ALPHA *( ALPHA / DIGIT / "+" / "-" /
"." )`, length ≥ 2, byte-wise. -/
def validateScheme (scheme : Str) : Option Err :=
  if scheme.length < 2 then some errInvalidScheme
  else
    match scheme with
    | [] => some errInvalidScheme
    | c :: rest =>
      if !isASCIILetter c then some (errorsJoin errInvalidScheme plainErr)
      else if rest.all (fun b =>
          isDigit b || isASCIILetter b || b == 0x2B || b == 0x2D ||
          b == 0x2E) then none
      else some (errorsJoin errInvalidScheme plainErr)

/-- `URI.validateQuery` (uri.go). -/
def validateQuery (T : HighRuneClasses) (query : Str) : Option Err :=
  match validateUnreservedWithExtra T query queryOrFragmentExtraRunes with
  | some e => some (errorsJoin errInvalidQuery e)
  | none => none

/-- `URI.validateFragment` (uri.go). -/
def validateFragment (T : HighRuneClasses) (fragment : Str) : Option Err :=
  match validateUnreservedWithExtra T fragment queryOrFragmentExtraRunes with
  | some e => some (errorsJoin errInvalidFragment e)
  | none => none

/-- `Authority.validateUserInfo` (uri.go). -/
def validateUserInfo (T : HighRuneClasses) (userinfo : Str) : Option Err :=
  match validateUnreservedWithExtra T userinfo userInfoExtraRunes with
  | some e => some (errorsJoin errInvalidUserInfo e)
  | none => none

/-- `Authority.validatePort` (uri.go): `port = *DIGIT`, value ≤ 65535, and a
non-empty port requires a host.  `strconv.ParseUint` is modelled by the
numeric value clamped to `2^64 - 1` (its result on range overflow, whose
error the source discards); an empty string yields 0. -/
def validatePort (port host : Str) : Option Err :=
  if !isNumerical port then some errInvalidPort
  else if host.isEmpty then some (errorsJoin errMissingHost plainErr)
  else if min (natOfDigits port) (2 ^ 64 - 1) > 65535 then
    some (errorsJoin errInvalidPort plainErr)
  else none

/-- The per-segment loop of `Authority.validatePath` (uri.go): the source
iterates the path rune by rune (`for pos, char := range path`), validating
the pchar run between consecutive `/` runes; `seg` accumulates the bytes of
the current segment.  The structural `fuel` bound is always sufficient at
`rem.length + 1`. -/
def pathSegsLoop (T : HighRuneClasses) : Nat → Str → Str → Option Err
  | _, [], seg =>
    if seg.isEmpty then none
    else
      match validateUnreservedWithExtra T seg pcharExtraRunes with
      | some e => some (errorsJoin errInvalidPath e)
      | none => none
  | 0, _ :: _, _ => none
  | fuel + 1, b :: rest, seg =>
    let d := utf8DecodeRune (b :: rest)
    if d.1 = slashMark then
      if seg.isEmpty then pathSegsLoop T fuel rest []
      else
        match validateUnreservedWithExtra T seg pcharExtraRunes with
        | some e => some (errorsJoin errInvalidPath e)
        | none => pathSegsLoop T fuel rest []
    else
      pathSegsLoop T fuel (List.drop (d.2 - 1) rest)
        (seg ++ (b :: rest).take d.2)

/-- `Authority.validatePath` (uri.go): rejects a `//`-prefixed path when the
authority is empty, then validates each `/`-separated segment against the
pchar character set. -/
def validatePath (T : HighRuneClasses) (a : Authority) (path : Str) :
    Option Err :=
  if a.host.isEmpty && a.port.isEmpty && decide (path.length ≥ 2) &&
      path.getD 0 0 == slashMark && path.getD 1 0 == slashMark then
    some (errorsJoin errInvalidPath plainErr)
  else pathSegsLoop T (path.length + 1) path []

/-- `validateRegisteredHostForScheme` (uri.go): RFC 3986 registered name —
the generic component validator with no extra runes. -/
def validateRegisteredHostForScheme (T : HighRuneClasses) (host : Str) :
    Option Err :=
  match validateUnreservedWithExtra T host [] with
  | some e => some (errorsJoin errInvalidRegisteredName e)
  | none => none

/-- `validateHostForScheme` (uri.go): DNS validation for DNS-oriented
schemes (per the package-level `UsesDNSHostValidation`), then in all cases
the registered-name validation. -/
def validateHostForScheme (T : HighRuneClasses) (host scheme : Str) :
    Option Err :=
  if usesDNSHostValidation scheme then
    match validateDNSHostForScheme T host with
    | some e => some e
    | none => validateRegisteredHostForScheme T host
  else validateRegisteredHostForScheme T host

/-- `Authority.validateHost` (uri.go): bracketed hosts go to the
IPvFuture/IPv6 validators; otherwise a valid strict IPv4 literal is accepted
as such (its error, if any, is discarded), and the host falls back to
DNS/registered-name validation. -/
def validateHost (T : HighRuneClasses) (host : Str) (isIPv6 : Bool)
    (scheme : Str) : IpType × Option Err :=
  if isIPv6 then
    if host.getD 0 0 = 0x76 ∨ host.getD 0 0 = 0x56 then
      match validateIPvFuture (host.drop 1) with
      | some e => ({}, some (errorsJoin errInvalidHostAddress e))
      | none => ({ isIPv6 := true, isIPvFuture := true }, none)
    else ({ isIPv6 := true }, validateIPv6 host)
  else
    if validateIPv4 host = none then ({ isIPv4 := true }, none)
    else
      match validateHostForScheme T host scheme with
      | some e => ({}, some (errorsJoin errInvalidHost e))
      | none => ({}, none)

/-- Userinfo step of `Authority.validateForScheme`. -/
def validateForSchemeUserInfo (T : HighRuneClasses) (a : Authority)
    (o : Options) (ip : IpType) : IpType × Option Err :=
  if !a.userinfo.isEmpty && hasFlag o flagValidateUserInfo then
    match validateUserInfo T a.userinfo with
    | some e => (ip, some e)
    | none => (ip, none)
  else (ip, none)

/-- Port and userinfo steps of `Authority.validateForScheme` (the `ip` value
assigned by the host step is returned alongside any port or userinfo
error). -/
def validateForSchemeRest (T : HighRuneClasses) (a : Authority)
    (_scheme : Str) (o : Options) (ip : IpType) : IpType × Option Err :=
  if !a.port.isEmpty && hasFlag o flagValidatePort then
    match validatePort a.port a.host with
    | some e => (ip, some e)
    | none => validateForSchemeUserInfo T a o ip
  else validateForSchemeUserInfo T a o ip

/-- Host step of `Authority.validateForScheme`. -/
def validateForSchemeHost (T : HighRuneClasses) (a : Authority)
    (scheme : Str) (o : Options) : IpType × Option Err :=
  if !a.host.isEmpty && hasFlag o flagValidateHost then
    match validateHost T a.host a.ip.isIPv6 scheme with
    | (ip, some e) => (ip, some e)
    | (ip, none) => validateForSchemeRest T a scheme o ip
  else validateForSchemeRest T a scheme o {}

/-- `Authority.validateForScheme` (uri.go): path, then host, then port, then
userinfo — each only when non-empty and enabled by the validation flags. -/
def validateForScheme (T : HighRuneClasses) (a : Authority) (scheme : Str)
    (o : Options) : IpType × Option Err :=
  if !a.path.isEmpty && hasFlag o flagValidatePath then
    match validatePath T a a.path with
    | some e => ({}, some e)
    | none => validateForSchemeHost T a scheme o
  else validateForSchemeHost T a scheme o

/-- Authority step of `URI.validate`: only for a non-empty hier-part. -/
def URI.validateAuth (T : HighRuneClasses) (u : URI) (o : Options) :
    IpType × Option Err :=
  if !u.hierPart.isEmpty then validateForScheme T u.authority u.scheme o
  else ({}, none)

/-- Fragment and authority steps of `URI.validate`. -/
def URI.validateFrag (T : HighRuneClasses) (u : URI) (o : Options) :
    IpType × Option Err :=
  if !u.fragment.isEmpty && hasFlag o flagValidateFragment then
    match validateFragment T u.fragment with
    | some e => ({}, some e)
    | none => URI.validateAuth T u o
  else URI.validateAuth T u o

/-- Query, fragment and authority steps of `URI.validate`. -/
def URI.validateQF (T : HighRuneClasses) (u : URI) (o : Options) :
    IpType × Option Err :=
  if !u.query.isEmpty && hasFlag o flagValidateQuery then
    match validateQuery T u.query with
    | some e => ({}, some e)
    | none => URI.validateFrag T u o
  else URI.validateFrag T u o

/-- `URI.validate` (uri.go): scheme, then query, then fragment, then (when
the hier-part is non-empty) the authority components. -/
def URI.validate (T : HighRuneClasses) (u : URI) (o : Options) :
    IpType × Option Err :=
  if !u.scheme.isEmpty && hasFlag o flagValidateScheme then
    match validateScheme u.scheme with
    | some e => ({}, some e)
    | none => URI.validateQF T u o
  else URI.validateQF T u o

end GoUri

namespace GoUri

/-!  ### The decomposer (uri.go) -/

/-- `parseAuthority` (uri.go): split the hier-part into prefix, userinfo,
host, port and path.  Bracketed hosts are unwrapped and provisionally tagged
IPv6; empty brackets and a missing closing bracket are rejected. -/
def parseAuthority (hier : Str) : Authority × Option Err :=
  let pfx := if hasPfx hier authorityPfx then authorityPfx else []
  let hier := trimPfx hier authorityPfx
  if pfx.isEmpty then
    ({ path := hier }, none)
  else
    let slashEnd := indexByte hier slashMark
    let path :=
      if slashEnd > -1 ∧ slashEnd < (hier.length : Int) then
        substrFrom hier slashEnd
      else []
    let hier := if slashEnd > -1 then substrTo hier slashEnd else hier
    let host := hier
    let at_ := indexByte host atHost
    let userinfo := if at_ > 0 then substrTo host at_ else []
    let host :=
      if at_ > 0 ∧ at_ + 1 < (host.length : Int) then
        substrFrom host (at_ + 1)
      else host
    let bracket := indexByte host openingBracketMark
    if bracket ≥ 0 then
      let rawHost := host
      let closingbracket := indexByte host closingBracketMark
      if closingbracket > bracket + 1 then
        let host := substr host (bracket + 1) closingbracket
        let rawHost := substrFrom rawHost (closingbracket + 1)
        let colon := indexByte rawHost colonMark
        let port :=
          if colon ≥ 0 ∧ colon + 1 < (rawHost.length : Int) then
            substrFrom rawHost (colon + 1)
          else []
        ({ pfx := pfx, userinfo := userinfo, host := host, port := port,
            path := path, ip := { isIPv6 := true } }, none)
      else if closingbracket > bracket then
        ({}, some (errorsJoin errInvalidHostAddress plainErr))
      else
        ({}, some (errorsJoin errInvalidHostAddress plainErr))
    else
      let colon := indexByte host colonMark
      let port :=
        if colon ≥ 0 ∧ colon + 1 < (host.length : Int) then
          substrFrom host (colon + 1)
        else []
      let host := if colon ≥ 0 then substrTo host colon else host
      ({ pfx := pfx, userinfo := userinfo, host := host, port := port,
          path := path }, none)

/-- An early-error return of `parse`: `URI{err: err}, err`. -/
def mkErrURI (e : Err) : URI × Option Err := ({ err := some e }, some e)

/-- The epilogue shared by most `parse` branches:
`u.authority.ipType, u.err = u.validate(o); u.authority.err = u.err`. -/
def finishWithAuthErr (T : HighRuneClasses) (u : URI) (o : Options) :
    URI × Option Err :=
  let v := URI.validate T u o
  let u' := { u with
    authority := { u.authority with ip := v.1, err := v.2 }, err := v.2 }
  (u', v.2)

/-- The epilogue of the trailing-colon branch of `parse` (e.g. `http:`),
which does not copy the error into the authority. -/
def finishNoAuthErr (T : HighRuneClasses) (u : URI) (o : Options) :
    URI × Option Err :=
  let v := URI.validate T u o
  let u' := { u with
    authority := { u.authority with ip := v.1 }, err := v.2 }
  (u', v.2)

/-- The query slice of the general branch of `parse` (uri.go):
`raw[hierPartEnd+1:]` when there is no `#`, `raw[hierPartEnd+1:queryEnd]`
when the fragment follows a non-empty query. -/
def queryOf (raw : Str) (hierPartEnd queryEnd : Int) : Str :=
  if hierPartEnd + 1 < (raw.length : Int) then
    if queryEnd < 0 then substrFrom raw (hierPartEnd + 1)
    else if hierPartEnd < queryEnd - 1 then
      substr raw (hierPartEnd + 1) queryEnd
    else []
  else []

/-- The fragment slice of `parse` (uri.go): `raw[queryEnd+1:]`. -/
def fragmentOf (raw : Str) (queryEnd : Int) : Str :=
  if queryEnd + 1 < (raw.length : Int) then substrFrom raw (queryEnd + 1)
  else []

/-- The third stage of `parse` (uri.go): the fragment-only forms and the
final assembly, given the hier-part/query state computed so far.
`curr` points past the consumed part of `raw`. -/
def parseStage3 (T : HighRuneClasses) (raw : Str) (o : Options)
    (scheme : Str) (hierPartEnd queryEnd curr : Int)
    (hierPart : Str) (authority : Authority) (query : Str) :
    URI × Option Err :=
  if queryEnd = (raw.length : Int) - 1 ∧ hierPartEnd < 0 then
    -- trailing '#', no query
    match parseAuthority (substr raw curr queryEnd) with
    | (_, some e) => mkErrURI (errorsJoin errInvalidURI e)
    | (authority, none) =>
      finishWithAuthErr T
        { scheme := scheme, hierPart := substr raw curr queryEnd,
          authority := authority, query := query } o
  else if queryEnd > 0 then
    -- there is a fragment
    if hierPartEnd < 0 then
      -- no query: reparse the hier-part up to the '#'
      match parseAuthority (substr raw curr queryEnd) with
      | (_, some e) => mkErrURI (errorsJoin errInvalidURI e)
      | (authority, none) =>
        finishWithAuthErr T
          { scheme := scheme, hierPart := substr raw curr queryEnd,
            query := query, fragment := fragmentOf raw queryEnd,
            authority := authority } o
    else
      finishWithAuthErr T
        { scheme := scheme, hierPart := hierPart, query := query,
          fragment := fragmentOf raw queryEnd, authority := authority } o
  else
    finishWithAuthErr T
      { scheme := scheme, hierPart := hierPart, query := query,
        fragment := [], authority := authority } o

/-- The trailing-`?` / no-query-no-fragment branch of `parse` (uri.go),
with `hpe` the effective hier-part end (the input length when there was no
`?`). -/
def parseNoFragment (T : HighRuneClasses) (raw : Str) (o : Options)
    (scheme : Str) (schemeEnd hpe : Int) : URI × Option Err :=
  match parseAuthority (substr raw (schemeEnd + 1) hpe) with
  | (_, some e) => mkErrURI (errorsJoin errInvalidURI e)
  | (authority, none) =>
    finishWithAuthErr T
      { scheme := scheme, hierPart := substr raw (schemeEnd + 1) hpe,
        authority := authority } o

/-- The second stage of `parse` (uri.go), entered once the scheme has been
sliced off: the trailing-`?` / no-query-no-fragment form, then the general
query extraction. -/
def parseStage2 (T : HighRuneClasses) (raw : Str) (o : Options)
    (scheme : Str) (schemeEnd hierPartEnd queryEnd : Int) :
    URI × Option Err :=
  if hierPartEnd = (raw.length : Int) - 1 ∨ (hierPartEnd < 0 ∧ queryEnd < 0)
  then
    parseNoFragment T raw o scheme schemeEnd
      (if hierPartEnd < 0 then ((raw.length : Int)) else hierPartEnd)
  else if hierPartEnd > 0 then
    match parseAuthority (substr raw (schemeEnd + 1) hierPartEnd) with
    | (_, some e) => mkErrURI (errorsJoin errInvalidURI e)
    | (authority, none) =>
      parseStage3 T raw o scheme hierPartEnd queryEnd (hierPartEnd + 1)
        (substr raw (schemeEnd + 1) hierPartEnd) authority
        (queryOf raw hierPartEnd queryEnd)
  else
    parseStage3 T raw o scheme hierPartEnd queryEnd (schemeEnd + 1) [] {} []

/-- The scheme `switch` of `parse` (uri.go), after the pathological-input
checks and the query/fragment reordering (`hierPartEnd` is already the
effective one). -/
def parseSwitch (T : HighRuneClasses) (raw : Str) (o : Options)
    (schemeEnd hierPartEnd queryEnd : Int) : URI × Option Err :=
  if schemeEnd > 0 ∧ ¬hasPfx raw authorityPfx then
    if schemeEnd + 1 = (raw.length : Int) then
      -- trailing ':' (e.g. http:)
      finishNoAuthErr T { scheme := substrTo raw schemeEnd } o
    else
      parseStage2 T raw o (substrTo raw schemeEnd) schemeEnd hierPartEnd
        queryEnd
  else if !o.withURIReference then
    mkErrURI (errorsJoin errNoSchemeFound plainErr)
  else if hasPfx raw authorityPfx then
    -- scheme is optional for URI references; input starts with `//`
    parseStage2 T raw o [] (-1) hierPartEnd queryEnd
  else
    parseStage2 T raw o [] schemeEnd hierPartEnd queryEnd

/-- `parse` (uri.go): locate the `:`, `?` and `#` delimiters, reject
pathological inputs, slice off the scheme and dispatch on URI/reference
mode. -/
def parse (T : HighRuneClasses) (raw : Str) (o : Options) :
    URI × Option Err :=
  if indexByte raw colonMark = 0 ∨ indexByte raw questionMark = 0 ∨
      indexByte raw fragmentMark = 0 then
    mkErrURI (errorsJoin errInvalidURI plainErr)
  else if indexByte raw colonMark = 1 then
    mkErrURI (errorsJoin errInvalidScheme plainErr)
  else if indexByte raw questionMark = 1 ∨ indexByte raw fragmentMark = 1
  then
    mkErrURI (errorsJoin errInvalidURI plainErr)
  else if (indexByte raw questionMark > 0 ∧
        indexByte raw questionMark < indexByte raw colonMark) ∨
      (indexByte raw fragmentMark > 0 ∧
        indexByte raw fragmentMark < indexByte raw colonMark) then
    mkErrURI (errorsJoin errInvalidURI plainErr)
  else if indexByte raw fragmentMark > 0 ∧
      indexByte raw fragmentMark < indexByte raw questionMark then
    parseSwitch T raw o (indexByte raw colonMark)
      (indexByte raw fragmentMark) (indexByte raw fragmentMark)
  else
    parseSwitch T raw o (indexByte raw colonMark)
      (indexByte raw questionMark) (indexByte raw fragmentMark)

/-- `Parse` (uri.go): strict URI mode. -/
def Parse (T : HighRuneClasses) (raw : Str) (opts : List OptionFn) :
    URI × Option Err :=
  parse T raw (applyURIOptions opts)

/-- `ParseReference` (uri.go): URI-reference mode. -/
def ParseReference (T : HighRuneClasses) (raw : Str) (opts : List OptionFn) :
    URI × Option Err :=
  parse T raw (applyURIReferenceOptions opts)

/-- `IsURI` (uri.go). -/
def IsURI (T : HighRuneClasses) (raw : Str) (opts : List OptionFn) : Bool :=
  (Parse T raw opts).2.isNone

/-- `IsURIReference` (uri.go). -/
def IsURIReference (T : HighRuneClasses) (raw : Str)
    (opts : List OptionFn) : Bool :=
  (ParseReference T raw opts).2.isNone

/-!  ### Rendering (uri.go) -/

/-- `Authority.buildString` (uri.go), as the string it writes: prefix,
userinfo (followed by `@` when non-empty), the host re-bracketed for IPv6,
`:` and the port when the port is non-empty, then the path. -/
def buildString (a : Authority) : Str :=
  a.pfx ++ a.userinfo ++
  (if a.userinfo.length > 0 then [atHost] else []) ++
  (if a.ip.isIPv6 then
    [openingBracketMark] ++ a.host ++ [closingBracketMark]
  else a.host) ++
  (if a.port.length > 0 then [colonMark] else []) ++
  a.port ++ a.path

/-- `Authority.String` (uri.go). -/
def Authority.toStr (a : Authority) : Str := buildString a

/-- `URI.String` (uri.go): scheme followed by `:` when non-empty, the
authority, `?` and the query when the query is non-empty, `#` and the
fragment when the fragment is non-empty. -/
def URI.toStr (u : URI) : Str :=
  (if u.scheme.length > 0 then u.scheme ++ [colonMark] else []) ++
  buildString u.authority ++
  (if u.query.length > 0 then [questionMark] ++ u.query else []) ++
  (if u.fragment.length > 0 then [fragmentMark] ++ u.fragment else [])

end GoUri

namespace GoUri

/-!  ### Builder methods (builder.go) -/

/-- `Authority.withEnsuredAuthority` (builder.go): set the `//` prefix when
any of userinfo, host or port is non-empty. -/
def withEnsuredAuthority (a : Authority) : Authority :=
  if !a.userinfo.isEmpty || !a.host.isEmpty || !a.port.isEmpty then
    { a with pfx := authorityPfx }
  else a

/-- The options used by a builder method: the caller's options with the
method's validation-flag override appended (so the override always wins). -/
def builderOptions (opts : List OptionFn) (flags : Nat) : Options :=
  applyURIOptions (opts ++ [withValidationFlags flags])

/-- `URI.WithScheme` (builder.go).  Note: does not copy the fresh error into
the authority. -/
def URI.withScheme (T : HighRuneClasses) (u : URI) (scheme : Str)
    (opts : List OptionFn) : URI :=
  match u.err with
  | some _ => u
  | none =>
    let o := builderOptions opts (flagValidateScheme ||| flagValidateHost)
    let u := { u with scheme := scheme }
    let v := URI.validate T u o
    { u with authority := { u.authority with ip := v.1 }, err := v.2 }

/-- `URI.WithAuthority` (builder.go). -/
def URI.withAuthority (T : HighRuneClasses) (u : URI) (authority : Authority)
    (opts : List OptionFn) : URI :=
  match u.err with
  | some _ => u
  | none =>
    let o := builderOptions opts
      (flagValidateHost ||| flagValidatePort ||| flagValidateUserInfo |||
        flagValidatePath)
    let u := { u with authority := authority }
    let v := URI.validate T u o
    { u with
      authority := { u.authority with ip := v.1, err := v.2 }, err := v.2 }

/-- `URI.WithUserInfo` (builder.go). -/
def URI.withUserInfo (T : HighRuneClasses) (u : URI) (userinfo : Str)
    (opts : List OptionFn) : URI :=
  match u.err with
  | some _ => u
  | none =>
    let o := builderOptions opts flagValidateUserInfo
    let u := { u with authority :=
      { withEnsuredAuthority u.authority with userinfo := userinfo } }
    let v := URI.validate T u o
    { u with
      authority := { u.authority with ip := v.1, err := v.2 }, err := v.2 }

/-- `URI.WithHost` (builder.go). -/
def URI.withHost (T : HighRuneClasses) (u : URI) (host : Str)
    (opts : List OptionFn) : URI :=
  match u.err with
  | some _ => u
  | none =>
    let o := builderOptions opts (flagValidateHost ||| flagValidatePort)
    let u := { u with authority :=
      { withEnsuredAuthority u.authority with host := host } }
    let v := URI.validate T u o
    { u with
      authority := { u.authority with ip := v.1, err := v.2 }, err := v.2 }

/-- `URI.WithPort` (builder.go). -/
def URI.withPort (T : HighRuneClasses) (u : URI) (port : Str)
    (opts : List OptionFn) : URI :=
  match u.err with
  | some _ => u
  | none =>
    let o := builderOptions opts flagValidatePort
    let u := { u with authority :=
      { withEnsuredAuthority u.authority with port := port } }
    let v := URI.validate T u o
    { u with
      authority := { u.authority with ip := v.1, err := v.2 }, err := v.2 }

/-- `URI.WithPath` (builder.go). -/
def URI.withPath (T : HighRuneClasses) (u : URI) (path : Str)
    (opts : List OptionFn) : URI :=
  match u.err with
  | some _ => u
  | none =>
    let o := builderOptions opts flagValidatePath
    let u := { u with authority :=
      { withEnsuredAuthority u.authority with path := path } }
    let v := URI.validate T u o
    { u with
      authority := { u.authority with ip := v.1, err := v.2 }, err := v.2 }

/-- `URI.WithQuery` (builder.go).  Note: does not copy the fresh error into
the authority. -/
def URI.withQuery (T : HighRuneClasses) (u : URI) (query : Str)
    (opts : List OptionFn) : URI :=
  match u.err with
  | some _ => u
  | none =>
    let o := builderOptions opts flagValidateQuery
    let u := { u with query := query }
    let v := URI.validate T u o
    { u with authority := { u.authority with ip := v.1 }, err := v.2 }

/-- `URI.WithFragment` (builder.go).  Note: does not copy the fresh error
into the authority. -/
def URI.withFragment (T : HighRuneClasses) (u : URI) (fragment : Str)
    (opts : List OptionFn) : URI :=
  match u.err with
  | some _ => u
  | none =>
    let o := builderOptions opts flagValidateFragment
    let u := { u with fragment := fragment }
    let v := URI.validate T u o
    { u with authority := { u.authority with ip := v.1 }, err := v.2 }

/-!  ### `path.Join` / `path.Clean` (Go standard library), used by
`URI.WithJoinPath`.  `Clean` is rendered functionally: split on `/`,
process `.` and `..` lexically with a stack, re-join. -/

/-- The segment stack processing of `path.Clean`. -/
def cleanSegs (rooted : Bool) : List Str → List Str → List Str
  | [], acc => acc.reverse
  | s :: rest, acc =>
    if s.isEmpty || s = [dotSeparator] then cleanSegs rooted rest acc
    else if s = [dotSeparator, dotSeparator] then
      match acc with
      | t :: acc' =>
        if t = [dotSeparator, dotSeparator] then
          cleanSegs rooted rest (s :: t :: acc')
        else cleanSegs rooted rest acc'
      | [] =>
        if rooted then cleanSegs rooted rest []
        else cleanSegs rooted rest [s]
    else cleanSegs rooted rest (s :: acc)

/-- Join segments with `/`. -/
def joinSegs : List Str → Str
  | [] => []
  | [s] => s
  | s :: rest => s ++ [slashMark] ++ joinSegs rest

/-- Go `path.Clean`, functionally: remove `.` segments and empty segments,
resolve `..` lexically (kept when they would escape a relative path,
dropped at the root of a rooted path); empty results become `.`; a rooted
path keeps its leading `/`. -/
def goPathClean (p : Str) : Str :=
  if p.isEmpty then [dotSeparator]
  else
    let rooted := p.headD 0 = slashMark
    let segs := cleanSegs rooted (splitOnByte slashMark p) []
    let out := joinSegs segs
    if rooted then
      [slashMark] ++ out
    else if out.isEmpty then [dotSeparator]
    else out

/-- Go `path.Join`: skip leading empty elements, join the rest with `/`,
and `Clean` the result; all-empty input yields the empty string. -/
def goPathJoin (elems : List Str) : Str :=
  if elems.all (·.isEmpty) then []
  else
    goPathClean
      (joinSegs (elems.dropWhile (·.isEmpty)))

/-- `URI.WithJoinPath` (part of the builder, provided outside builder.go):
joins the existing path with the given elements via `path.Join` and
re-validates the path. -/
def URI.withJoinPath (T : HighRuneClasses) (u : URI) (elems : List Str) :
    URI :=
  match u.err with
  | some _ => u
  | none =>
    let o := applyURIOptions [withValidationFlags flagValidatePath]
    let u := { u with authority := withEnsuredAuthority u.authority }
    let full := u.authority.path :: elems
    let u := { u with authority :=
      { u.authority with path := goPathJoin full } }
    let v := URI.validate T u o
    { u with
      authority := { u.authority with ip := v.1, err := v.2 }, err := v.2 }

end GoUri

namespace GoUri

/-!  ### Claim-side definitions

The following definitions restate parts of the specification in order to
compare them with the embedded source functions; they are written from the
spec's words, not from the code. -/

/-- The decomposition of a URI value as enumerated by the round-trip claim:
scheme, authority prefix, userinfo, host, port, path, query and fragment. -/
def decomp (u : URI) : List Str :=
  [u.scheme, u.authority.pfx, u.authority.userinfo, u.authority.host,
    u.authority.port, u.authority.path, u.query, u.fragment]

/-- The rendering rule of the spec (§6), with the amendment forced by the
code: each optional separator is emitted exactly when the following
component is non-empty (a query or fragment that was present but empty in
the input is not re-emitted), and IPv6 hosts are re-bracketed. -/
def specRender (u : URI) : Str :=
  (if u.scheme ≠ [] then u.scheme ++ [colonMark] else []) ++
  u.authority.pfx ++
  (if u.authority.userinfo ≠ [] then u.authority.userinfo ++ [atHost]
    else []) ++
  (if u.authority.ip.isIPv6 then
    [openingBracketMark] ++ u.authority.host ++ [closingBracketMark]
  else u.authority.host) ++
  (if u.authority.port ≠ [] then [colonMark] ++ u.authority.port else []) ++
  u.authority.path ++
  (if u.query ≠ [] then [questionMark] ++ u.query else []) ++
  (if u.fragment ≠ [] then [fragmentMark] ++ u.fragment else [])

/-- `spelled` consists of the `%HH` spelling of exactly the byte list
`bytes`, as positioned after an opening `%`: two hex digits for the first
byte, then `%` and two hex digits for each subsequent byte. -/
def spellsGroups : Str → List Nat → Bool
  | [c1, c2], [b] => isHex c1 && isHex c2 && (unhex c1 * 16 + unhex c2 == b)
  | c1 :: c2 :: p :: rest, b :: bs =>
    isHex c1 && isHex c2 && (unhex c1 * 16 + unhex c2 == b) &&
    p == percentMark && spellsGroups rest bs
  | _, _ => false

/-- An incomplete percent escape as enumerated by the claim: after the `%`,
either nothing, a single trailing hex digit, or two characters of which at
least one is not a hex digit. -/
def IncompleteEscapeTail (rest : Str) : Prop :=
  rest = [] ∨ (∃ h, rest = [h] ∧ isHex h = true) ∨
  (∃ c1 c2 t, rest = c1 :: c2 :: t ∧ ¬(isHex c1 = true ∧ isHex c2 = true))

/-- A string containing an incomplete percent escape. -/
def ContainsIncompleteEscape (s : Str) : Prop :=
  ∃ pre rest, s = pre ++ percentMark :: rest ∧ IncompleteEscapeTail rest

/-- The canonical per-component validation results of a URI value, in the
order stated by the spec: scheme, query, fragment, path, host, port,
userinfo.  Each entry is `none` when the component is skipped (empty
component, disabled flag, or — for the authority components — an empty
hier-part). -/
def componentChecks (T : HighRuneClasses) (u : URI) (o : Options) :
    List (Option Err) :=
  [if !u.scheme.isEmpty && hasFlag o flagValidateScheme then
      validateScheme u.scheme
    else none,
  if !u.query.isEmpty && hasFlag o flagValidateQuery then
      validateQuery T u.query
    else none,
  if !u.fragment.isEmpty && hasFlag o flagValidateFragment then
      validateFragment T u.fragment
    else none,
  if !u.hierPart.isEmpty && !u.authority.path.isEmpty &&
      hasFlag o flagValidatePath then
      validatePath T u.authority u.authority.path
    else none,
  if !u.hierPart.isEmpty && !u.authority.host.isEmpty &&
      hasFlag o flagValidateHost then
      (validateHost T u.authority.host u.authority.ip.isIPv6 u.scheme).2
    else none,
  if !u.hierPart.isEmpty && !u.authority.port.isEmpty &&
      hasFlag o flagValidatePort then
      validatePort u.authority.port u.authority.host
    else none,
  if !u.hierPart.isEmpty && !u.authority.userinfo.isEmpty &&
      hasFlag o flagValidateUserInfo then
      validateUserInfo T u.authority.userinfo
    else none]

/-- First error of a list of per-component results. -/
def firstErrorOf : List (Option Err) → Option Err
  | [] => none
  | none :: rest => firstErrorOf rest
  | some e :: _ => some e

/-- Two URI values with the same decomposition (they may differ in their
embedded error and in the IP tag). -/
def SameDecomp (u v : URI) : Prop := decomp u = decomp v

/-- The loop of the scalar-sequence decoding of a host (claim-side), with a
structural fuel bound, sufficient at `rem.length + 1`. -/
def decodeHostScalarsLoop : Nat → Str → Option (List Nat)
  | _, [] => some []
  | 0, _ :: _ => none
  | fuel + 1, b :: rest =>
    let d := utf8DecodeRune (b :: rest)
    if d.1 = runeError then none
    else if d.1 = percentMark then
      match List.drop (d.2 - 1) rest with
      | [] => none
      | a :: after' =>
        match unescapePercentEncoding (a :: after') with
        | .error _ => none
        | .ok (u, sz) =>
          match decodeHostScalarsLoop fuel (List.drop (sz - 1) after') with
          | none => none
          | some l => some (u :: l)
    else
      match decodeHostScalarsLoop fuel (List.drop (d.2 - 1) rest) with
      | none => none
      | some l => some (d.1 :: l)

/-- Decode the scalar sequence of a host as the DNS validator sees it: one
scalar per UTF-8 rune, with percent-escapes decoded on the fly; `none` when
some byte sequence or escape is malformed. -/
def decodeHostScalars (s : Str) : Option (List Nat) :=
  decodeHostScalarsLoop (s.length + 1) s

/-- The character rules of one DNS label, on decoded scalars, as amended:
non-empty, the first scalar a Unicode letter, every subsequent scalar a
Unicode letter, digit or `-`, and the last scalar a letter or digit. -/
def dnsLabelOk (T : HighRuneClasses) : List Nat → Bool
  | [] => false
  | h :: t =>
    uniIsLetter T h &&
    t.all (fun r => uniIsLetter T r || uniIsDigit T r || r == 0x2D) &&
    (uniIsLetter T ((h :: t).getLastD 0) ||
      uniIsDigit T ((h :: t).getLastD 0))

/-- All labels (the scalar runs between `.` scalars) satisfy the character
rules. -/
def dnsLabelsOk (T : HighRuneClasses) (scalars : List Nat) : Bool :=
  (splitOnByte dotSeparator scalars).all (dnsLabelOk T)

end GoUri

namespace GoUri

/-!  ## Helper lemmas -/

theorem utf8DecodeRune_nil : utf8DecodeRune [] = (runeError, 0) := rfl

theorem utf8DecodeRune_cons (b0 : Nat) (rest : Str) :
    utf8DecodeRune (b0 :: rest) = utf8DecodeCont b0 rest := rfl

theorem mkErrURI_err_eq (e : Err) : (mkErrURI e).1.err = (mkErrURI e).2 := rfl

theorem finishWithAuthErr_err_eq (T : HighRuneClasses) (u : URI)
    (o : Options) :
    (finishWithAuthErr T u o).1.err = (finishWithAuthErr T u o).2 := rfl

theorem finishNoAuthErr_err_eq (T : HighRuneClasses) (u : URI)
    (o : Options) :
    (finishNoAuthErr T u o).1.err = (finishNoAuthErr T u o).2 := rfl

theorem parseStage3_err_eq (T : HighRuneClasses) (raw : Str) (o : Options)
    (scheme : Str) (hierPartEnd queryEnd curr : Int) (hierPart : Str)
    (authority : Authority) (query : Str) :
    (parseStage3 T raw o scheme hierPartEnd queryEnd curr hierPart authority
        query).1.err =
      (parseStage3 T raw o scheme hierPartEnd queryEnd curr hierPart
        authority query).2 := by
  unfold parseStage3
  split
  · split <;> rfl
  · split
    · split
      · split <;> rfl
      · rfl
    · rfl

theorem parseStage2_err_eq (T : HighRuneClasses) (raw : Str) (o : Options)
    (scheme : Str) (schemeEnd hierPartEnd queryEnd : Int) :
    (parseStage2 T raw o scheme schemeEnd hierPartEnd queryEnd).1.err =
      (parseStage2 T raw o scheme schemeEnd hierPartEnd queryEnd).2 := by
  unfold parseStage2 parseNoFragment
  split
  · split <;> rfl
  · split
    · split
      · rfl
      · apply parseStage3_err_eq
    · apply parseStage3_err_eq

theorem parseSwitch_err_eq (T : HighRuneClasses) (raw : Str) (o : Options)
    (schemeEnd hierPartEnd queryEnd : Int) :
    (parseSwitch T raw o schemeEnd hierPartEnd queryEnd).1.err =
      (parseSwitch T raw o schemeEnd hierPartEnd queryEnd).2 := by
  unfold parseSwitch
  split
  · split
    · rfl
    · apply parseStage2_err_eq
  · split
    · rfl
    · split
      · apply parseStage2_err_eq
      · apply parseStage2_err_eq

theorem parse_err_eq (T : HighRuneClasses) (raw : Str) (o : Options) :
    (parse T raw o).1.err = (parse T raw o).2 := by
  unfold parse
  split
  · rfl
  · split
    · rfl
    · split
      · rfl
      · split
        · rfl
        · split
          · apply parseSwitch_err_eq
          · apply parseSwitch_err_eq

/-!  ## C9 -/

/-- C9: For every raw input string and every option list, `Parse` and
`ParseReference` return a pair `(u, err)` in which `u.Err()` is exactly the
returned `err` — on failure the returned value embeds precisely the error
that was returned, and on success both are `nil`. -/
theorem parse_embeds_returned_error (T : HighRuneClasses) (raw : Str)
    (opts : List OptionFn) :
    (Parse T raw opts).1.err = (Parse T raw opts).2 ∧
    (ParseReference T raw opts).1.err = (ParseReference T raw opts).2 :=
  ⟨parse_err_eq T raw (applyURIOptions opts),
    parse_err_eq T raw (applyURIReferenceOptions opts)⟩

/-!  ## C2 -/

/-- C2 (amended): `URI.String` renders exactly per the spec's concatenation
rule with each optional separator emitted precisely when the following
component is non-empty; a query or fragment that was present but empty in
the parsed input is not re-emitted. -/
theorem uriString_eq_specRender (u : URI) : URI.toStr u = specRender u := by
  rcases u with ⟨e, s, h, q, fr, a⟩
  rcases a with ⟨ae, pfx, ui, ho, po, pa, ip⟩
  simp only [URI.toStr, specRender, buildString]
  cases s <;> cases ui <;> cases po <;> cases q <;> cases fr <;>
    simp [List.append_assoc]

/-- C2, counterexample to the claim as stated: `https://h?` parses
successfully (with a present-but-empty query), but renders back without the
trailing `?`. -/
theorem trailing_query_mark_dropped :
    (Parse noHighRunes (mkStr "https://h?") []).2 = none ∧
    URI.toStr (Parse noHighRunes (mkStr "https://h?") []).1 =
      mkStr "https://h" := by
  constructor <;> decide

end GoUri

namespace GoUri

/-!  ## C8 -/

/-- C8: every builder operation on a value already carrying an error is a
no-op — it returns the value unchanged, replacing no component and running
no re-validation — and consequently a fresh error from a builder's
re-validation can only be stored when the value's previous error was
`nil`. -/
theorem builders_are_noops_on_error (T : HighRuneClasses) (u : URI) (e : Err)
    (h : u.err = some e) (scheme userinfo host port path query fragment : Str)
    (a : Authority) (elems : List Str) (opts : List OptionFn) :
    URI.withScheme T u scheme opts = u ∧
    URI.withAuthority T u a opts = u ∧
    URI.withUserInfo T u userinfo opts = u ∧
    URI.withHost T u host opts = u ∧
    URI.withPort T u port opts = u ∧
    URI.withPath T u path opts = u ∧
    URI.withQuery T u query opts = u ∧
    URI.withFragment T u fragment opts = u ∧
    URI.withJoinPath T u elems = u := by
  unfold URI.withScheme URI.withAuthority URI.withUserInfo URI.withHost
    URI.withPort URI.withPath URI.withQuery URI.withFragment URI.withJoinPath
  rw [h]
  exact ⟨rfl, rfl, rfl, rfl, rfl, rfl, rfl, rfl, rfl⟩

/-- C8, witness: a concrete value carrying an `InvalidPort` error is left
unchanged by every builder operation. -/
theorem builders_are_noops_on_error_witness :
    (Parse noHighRunes (mkStr "https://host:X8080") []).1.err =
      some errInvalidPort ∧
    URI.withScheme noHighRunes
        (Parse noHighRunes (mkStr "https://host:X8080") []).1
        (mkStr "http") [] =
      (Parse noHighRunes (mkStr "https://host:X8080") []).1 :=
  ⟨by decide,
    (builders_are_noops_on_error noHighRunes
      (Parse noHighRunes (mkStr "https://host:X8080") []).1
      errInvalidPort (by decide) (mkStr "http") [] [] [] [] [] [] {} [] []).1⟩

/-!  ## C6 -/

theorem utf8DecodeRune_first_ge (b : Nat) (rest : Str) (h : 0x80 ≤ b) :
    0x80 ≤ (utf8DecodeRune (b :: rest)).1 := by
  rcases rest with _ | ⟨b1, _ | ⟨b2, _ | ⟨b3, r⟩⟩⟩ <;>
    simp only [utf8DecodeRune_cons, utf8DecodeCont, utf8Decode2,
      utf8Decode3, utf8Decode4, runeError] <;>
    split_ifs <;> dsimp only <;> omega

theorem isNumericalLoop_nil (fuel : Nat) : isNumericalLoop fuel [] = true := by
  cases fuel <;> rfl

theorem isNumericalLoop_succ_cons (fuel b : Nat) (rest : Str) :
    isNumericalLoop (fuel + 1) (b :: rest) =
      (isDigit (utf8DecodeRune (b :: rest)).1 &&
        isNumericalLoop fuel
          (List.drop ((utf8DecodeRune (b :: rest)).2 - 1) rest)) := rfl

theorem utf8DecodeCont_ascii (b : Nat) (rest : Str) (hb : b < 0x80) :
    utf8DecodeCont b rest = (b, 1) := by
  unfold utf8DecodeCont
  rw [if_pos hb]

theorem isNumericalLoop_eq_all (fuel : Nat) (s : Str) (h : s.length < fuel) :
    isNumericalLoop fuel s = s.all isDigit := by
  induction fuel generalizing s with
  | zero => omega
  | succ fuel ih =>
    match s with
    | [] => rw [isNumericalLoop_nil]; rfl
    | b :: rest =>
      rw [isNumericalLoop_succ_cons, utf8DecodeRune_cons]
      by_cases hb : b < 0x80
      · rw [utf8DecodeCont_ascii b rest hb]
        simp only [show (1 : Nat) - 1 = 0 from rfl, List.drop_zero,
          List.all_cons]
        rw [ih rest (by simp at h ⊢; omega)]
      · have hd : 0x80 ≤ (utf8DecodeCont b rest).1 := by
          rw [← utf8DecodeRune_cons]
          exact utf8DecodeRune_first_ge b rest (by omega)
        have h1 : isDigit (utf8DecodeCont b rest).1 = false := by
          unfold isDigit
          simp only [Bool.and_eq_false_iff]
          right
          simp only [decide_eq_false_iff_not, not_le]
          omega
        have h2 : isDigit b = false := by
          unfold isDigit
          simp only [Bool.and_eq_false_iff]
          right
          simp only [decide_eq_false_iff_not, not_le]
          omega
        simp only [h1, Bool.false_and, List.all_cons, h2]

theorem isNumerical_eq_all (s : Str) : isNumerical s = s.all isDigit :=
  isNumericalLoop_eq_all (s.length + 1) s (by omega)

/-- C6 (amended): port validation accepts exactly the all-digit ports of
numeric value at most 65535 accompanied by a non-empty host; a port with a
non-digit character yields `InvalidPort`; an all-digit port with value
greater than 65535 and a non-empty host yields `InvalidPort`; for an empty
host the `MissingHost` check takes precedence over the range check (an
all-digit port — regardless of its value — with an empty host yields
`MissingHost`, not `InvalidPort`).  The empty port is skipped (accepted)
at the validation call site. -/
theorem validatePort_characterization (port host : Str) :
    (validatePort port host = none ↔
      (port.all isDigit = true ∧ natOfDigits port ≤ 65535 ∧ host ≠ [])) ∧
    (port.all isDigit = false → validatePort port host = some errInvalidPort) ∧
    (port.all isDigit = true → host ≠ [] → natOfDigits port > 65535 →
      ∃ e, validatePort port host = some e ∧ e.is .invalidPort = true) ∧
    (port.all isDigit = true → host = [] →
      ∃ e, validatePort port host = some e ∧ e.is .missingHost = true ∧
        e.is .invalidPort = false) ∧
    (∀ (T : HighRuneClasses) (a : Authority) (scheme : Str) (o : Options)
      (ip : IpType), a.port = [] →
      validateForSchemeRest T a scheme o ip =
        validateForSchemeUserInfo T a o ip) := by
  refine ⟨?_, ?_, ?_, ?_, ?_⟩
  · unfold validatePort
    rw [isNumerical_eq_all]
    constructor
    · intro h
      by_cases h1 : port.all isDigit
      · simp only [h1, Bool.not_true, Bool.false_eq_true, if_false] at h
        by_cases h2 : host.isEmpty
        · rw [if_pos h2] at h
          exact absurd h (by simp)
        · rw [if_neg h2] at h
          refine ⟨h1, ?_, by simpa using h2⟩
          by_cases h3 : min (natOfDigits port) (2 ^ 64 - 1) > 65535
          · rw [if_pos h3] at h
            exact absurd h (by simp)
          · omega
      · rw [if_pos (by simp [h1])] at h
        exact absurd h (by simp)
    · rintro ⟨h1, h2, h3⟩
      rw [if_neg (by simp [h1]), if_neg (by simpa using h3),
        if_neg (by omega)]
  · intro h
    unfold validatePort
    rw [isNumerical_eq_all, if_pos (by simp [h])]
  · intro h1 h2 h3
    unfold validatePort
    rw [isNumerical_eq_all, if_neg (by simp [h1]),
      if_neg (by simpa using h2), if_pos (by omega)]
    exact ⟨_, rfl, by decide⟩
  · intro h1 h2
    unfold validatePort
    rw [isNumerical_eq_all, if_neg (by simp [h1]), if_pos (by simp [h2])]
    exact ⟨_, rfl, by decide, by decide⟩
  · intro T a scheme o ip h
    unfold validateForSchemeRest
    rw [h]
    simp

/-- C6, witness at a concrete input: port `8080` with host `h` is accepted;
port `8a` yields `InvalidPort`. -/
theorem validatePort_characterization_witness :
    validatePort (mkStr "8080") (mkStr "h") = none ∧
    validatePort (mkStr "8a") (mkStr "h") = some errInvalidPort :=
  ⟨((validatePort_characterization (mkStr "8080") (mkStr "h")).1).2
      ⟨by decide, by decide, by decide⟩,
    ((validatePort_characterization (mkStr "8a") (mkStr "h")).2.1)
      (by decide)⟩

/-- C6, counterexample to the claim as stated: the all-digit port `70000`
(value greater than 65535) together with an empty host yields
`MissingHost`, not `InvalidPort`. -/
theorem port_70000_empty_host_missing_host :
    ∃ e, validatePort (mkStr "70000") [] = some e ∧
      e.is .missingHost = true ∧ e.is .invalidPort = false :=
  ⟨⟨[.missingHost]⟩, by decide, by decide, by decide⟩

end GoUri

namespace GoUri

/-!  ## C4 : the percent-decoder -/

theorem utf8Decode2_cons (b0 b1 : Nat) (rest : Str) :
    utf8Decode2 b0 (b1 :: rest) =
      if 0x80 ≤ b1 ∧ b1 ≤ 0xBF then ((b0 - 0xC0) * 0x40 + (b1 - 0x80), 2)
      else (runeError, 1) := rfl

theorem utf8Decode3_cons (b0 b1 b2 : Nat) (rest : Str) :
    utf8Decode3 b0 (b1 :: b2 :: rest) =
      if ((if b0 = 0xE0 then 0xA0 else 0x80) ≤ b1 ∧
          b1 ≤ (if b0 = 0xED then 0x9F else 0xBF)) ∧
          (0x80 ≤ b2 ∧ b2 ≤ 0xBF) then
        ((b0 - 0xE0) * 0x1000 + (b1 - 0x80) * 0x40 + (b2 - 0x80), 3)
      else (runeError, 1) := rfl

theorem utf8Decode4_cons (b0 b1 b2 b3 : Nat) (rest : Str) :
    utf8Decode4 b0 (b1 :: b2 :: b3 :: rest) =
      if ((if b0 = 0xF0 then 0x90 else 0x80) ≤ b1 ∧
          b1 ≤ (if b0 = 0xF4 then 0x8F else 0xBF)) ∧
          (0x80 ≤ b2 ∧ b2 ≤ 0xBF) ∧ (0x80 ≤ b3 ∧ b3 ≤ 0xBF) then
        ((b0 - 0xF0) * 0x40000 + (b1 - 0x80) * 0x1000 + (b2 - 0x80) * 0x40 +
          (b3 - 0x80), 4)
      else (runeError, 1) := rfl

theorem encode2_val (r : Nat) (hc1 : ¬r < 0x80) (hc2 : r < 0x800) :
    (0xC0 + r / 0x40 - 0xC0) * 0x40 + (0x80 + r % 0x40 - 0x80) = r := by
  omega

theorem encode3_val (r : Nat) (hc1 : ¬r < 0x800) (hc2 : r < 0x10000) :
    (0xE0 + r / 0x1000 - 0xE0) * 0x1000 +
      (0x80 + r / 0x40 % 0x40 - 0x80) * 0x40 + (0x80 + r % 0x40 - 0x80) =
      r := by
  omega

theorem encode4_val (r : Nat) (hc1 : ¬r < 0x10000) (hc2 : r < 0x110000) :
    (0xF0 + r / 0x40000 - 0xF0) * 0x40000 +
      (0x80 + r / 0x1000 % 0x40 - 0x80) * 0x1000 +
      (0x80 + r / 0x40 % 0x40 - 0x80) * 0x40 + (0x80 + r % 0x40 - 0x80) =
      r := by
  omega

set_option maxRecDepth 16000 in
theorem utf8_decode_encode (r : Nat) (h : IsValidScalar r) (t : Str) :
    utf8DecodeRune (utf8Encode r ++ t) = (r, (utf8Encode r).length) := by
  obtain ⟨h1, h2⟩ := h
  unfold utf8Encode
  split_ifs with c1 c2 c3
  · simp only [List.cons_append, List.nil_append, utf8DecodeRune_cons]
    rw [utf8DecodeCont_ascii r t c1]
    rfl
  · simp only [List.cons_append, List.nil_append, utf8DecodeRune_cons]
    unfold utf8DecodeCont
    rw [if_neg (by omega), if_neg (by omega), if_pos (by omega),
      utf8Decode2_cons, if_pos (by omega)]
    simp only [List.length_cons, List.length_nil, Prod.mk.injEq]
    exact ⟨encode2_val r c1 c2, by decide⟩
  · simp only [List.cons_append, List.nil_append, utf8DecodeRune_cons]
    unfold utf8DecodeCont
    rw [if_neg (by omega), if_neg (by omega), if_neg (by omega),
      if_pos (by omega), utf8Decode3_cons,
      if_pos (by refine ⟨⟨?_, ?_⟩, ?_, ?_⟩ <;>
        first
        | (split_ifs <;> omega)
        | omega)]
    simp only [List.length_cons, List.length_nil, Prod.mk.injEq]
    exact ⟨encode3_val r c2 c3, by decide⟩
  · simp only [List.cons_append, List.nil_append, utf8DecodeRune_cons]
    unfold utf8DecodeCont
    rw [if_neg (by omega), if_neg (by omega), if_neg (by omega),
      if_neg (by omega), if_pos (by omega), utf8Decode4_cons,
      if_pos (by refine ⟨⟨?_, ?_⟩, ⟨?_, ?_⟩, ?_, ?_⟩ <;>
        first
        | (split_ifs <;> omega)
        | omega)]
    simp only [List.length_cons, List.length_nil, Prod.mk.injEq]
    exact ⟨encode4_val r c3 h1, by decide⟩

end GoUri

namespace GoUri

theorem unescapeSequence_nil : unescapeSequence [] = .error plainErr := rfl

theorem unescapeSequence_one (c : Nat) :
    unescapeSequence [c] = .error plainErr := rfl

theorem unescapeSequence_cons2 (c1 c2 : Nat) (t : Str) :
    unescapeSequence (c1 :: c2 :: t) =
      if !isHex c1 || !isHex c2 then .error plainErr
      else .ok (unhex c1 * 16 + unhex c2) := rfl

theorem unescapeSequence_ok_iff (s : Str) (b : Nat) :
    unescapeSequence s = .ok b ↔
      ∃ c1 c2 t, s = c1 :: c2 :: t ∧ isHex c1 = true ∧ isHex c2 = true ∧
        unhex c1 * 16 + unhex c2 = b := by
  match s with
  | [] => simp [unescapeSequence_nil]
  | [c1] => simp [unescapeSequence_one]
  | c1 :: c2 :: t =>
    rw [unescapeSequence_cons2]
    constructor
    · intro h
      split_ifs at h with hcond
      simp only [Except.ok.injEq] at h
      simp only [Bool.or_eq_true, Bool.not_eq_true', not_or] at hcond
      simp only [ne_eq, Bool.not_eq_false] at hcond
      exact ⟨c1, c2, t, rfl, hcond.1, hcond.2, h⟩
    · rintro ⟨c1', c2', t', heq, h1, h2, hv⟩
      obtain ⟨rfl, rfl, rfl⟩ : c1 = c1' ∧ c2 = c2' ∧ t = t' := by
        simp at heq
        exact ⟨heq.1, heq.2.1, heq.2.2⟩
      rw [if_neg (by simp [h1, h2])]
      simp [hv]

end GoUri

namespace GoUri

theorem encode2_of_bytes (b0 b1 : Nat) (h0 : 0xC2 ≤ b0) (h0' : b0 < 0xE0)
    (h1 : 0x80 ≤ b1) (h1' : b1 ≤ 0xBF) :
    utf8Encode ((b0 - 0xC0) * 0x40 + (b1 - 0x80)) = [b0, b1] ∧
    IsValidScalar ((b0 - 0xC0) * 0x40 + (b1 - 0x80)) ∧
    (b0 - 0xC0) * 0x40 + (b1 - 0x80) ≠ runeError := by
  refine ⟨?_, ⟨by omega, by omega⟩, by unfold runeError; omega⟩
  unfold utf8Encode
  rw [if_neg (by omega), if_pos (by omega)]
  simp only [List.cons.injEq, and_true]
  constructor <;> omega

theorem encode3_of_bytes (b0 b1 b2 : Nat) (h0 : 0xE0 ≤ b0) (h0' : b0 < 0xF0)
    (h1 : (if b0 = 0xE0 then 0xA0 else 0x80) ≤ b1)
    (h1' : b1 ≤ (if b0 = 0xED then 0x9F else 0xBF)) (h1'' : b1 ≤ 0xBF)
    (h2 : 0x80 ≤ b2) (h2' : b2 ≤ 0xBF) :
    utf8Encode ((b0 - 0xE0) * 0x1000 + (b1 - 0x80) * 0x40 + (b2 - 0x80)) =
      [b0, b1, b2] ∧
    IsValidScalar ((b0 - 0xE0) * 0x1000 + (b1 - 0x80) * 0x40 + (b2 - 0x80)) := by
  have hb1 : 0x80 ≤ b1 := by
    by_cases hx : b0 = 0xE0
    · rw [if_pos hx] at h1
      omega
    · rw [if_neg hx] at h1
      omega
  have hlow : ¬(b0 = 0xE0 ∧ b1 < 0xA0) := by
    intro hx
    rw [if_pos hx.1] at h1
    omega
  have hsur : ¬(b0 = 0xED ∧ 0xA0 ≤ b1) := by
    intro hx
    rw [if_pos hx.1] at h1'
    omega
  clear h1 h1'
  refine ⟨?_, ⟨by omega, by omega⟩⟩
  unfold utf8Encode
  rw [if_neg (by omega), if_neg (by omega), if_pos (by omega)]
  simp only [List.cons.injEq, and_true]
  refine ⟨by omega, by omega, by omega⟩

theorem encode4_of_bytes (b0 b1 b2 b3 : Nat) (h0 : 0xF0 ≤ b0)
    (h0' : b0 < 0xF5)
    (h1 : (if b0 = 0xF0 then 0x90 else 0x80) ≤ b1)
    (h1' : b1 ≤ (if b0 = 0xF4 then 0x8F else 0xBF)) (h1'' : b1 ≤ 0xBF)
    (h2 : 0x80 ≤ b2) (h2' : b2 ≤ 0xBF) (h3 : 0x80 ≤ b3) (h3' : b3 ≤ 0xBF) :
    utf8Encode ((b0 - 0xF0) * 0x40000 + (b1 - 0x80) * 0x1000 +
        (b2 - 0x80) * 0x40 + (b3 - 0x80)) = [b0, b1, b2, b3] ∧
    IsValidScalar ((b0 - 0xF0) * 0x40000 + (b1 - 0x80) * 0x1000 +
      (b2 - 0x80) * 0x40 + (b3 - 0x80)) ∧
    (b0 - 0xF0) * 0x40000 + (b1 - 0x80) * 0x1000 + (b2 - 0x80) * 0x40 +
      (b3 - 0x80) ≠ runeError := by
  have hb1 : 0x80 ≤ b1 := by
    by_cases hx : b0 = 0xF0
    · rw [if_pos hx] at h1
      omega
    · rw [if_neg hx] at h1
      omega
  have hlow : ¬(b0 = 0xF0 ∧ b1 < 0x90) := by
    intro hx
    rw [if_pos hx.1] at h1
    omega
  have hhigh : ¬(b0 = 0xF4 ∧ 0x90 ≤ b1) := by
    intro hx
    rw [if_pos hx.1] at h1'
    omega
  clear h1 h1'
  refine ⟨?_, ⟨by omega, by omega⟩, by unfold runeError; omega⟩
  unfold utf8Encode
  rw [if_neg (by omega), if_neg (by omega), if_neg (by omega)]
  simp only [List.cons.injEq, and_true]
  refine ⟨by omega, by omega, by omega, by omega⟩

end GoUri

namespace GoUri

theorem unhex_le (c : Nat) : unhex c ≤ 15 := by
  unfold unhex
  split_ifs <;> omega

theorem spellsGroups_two (c1 c2 b : Nat) :
    spellsGroups [c1, c2] [b] =
      (isHex c1 && isHex c2 && (unhex c1 * 16 + unhex c2 == b)) := rfl

theorem spellsGroups_more (c1 c2 p : Nat) (rest : Str) (b b' : Nat)
    (bs : List Nat) :
    spellsGroups (c1 :: c2 :: p :: rest) (b :: b' :: bs) =
      (isHex c1 && isHex c2 && (unhex c1 * 16 + unhex c2 == b) &&
       (p == percentMark) && spellsGroups rest (b' :: bs)) := rfl

theorem spellsGroups_nil_right (sp : Str) : spellsGroups sp [] = false := by
  match sp with
  | [] => rfl
  | [c] => rfl
  | [c1, c2] => rfl
  | c1 :: c2 :: p :: rest => rfl

theorem spellsGroups_one_iff (sp : Str) (b : Nat) :
    spellsGroups sp [b] = true ↔
      ∃ c1 c2, sp = [c1, c2] ∧ isHex c1 = true ∧ isHex c2 = true ∧
        unhex c1 * 16 + unhex c2 = b := by
  match sp with
  | [] => simp [spellsGroups]
  | [c] => simp [spellsGroups]
  | [c1, c2] =>
    rw [spellsGroups_two]
    constructor
    · intro h
      simp only [Bool.and_eq_true, beq_iff_eq] at h
      exact ⟨c1, c2, rfl, h.1.1, h.1.2, h.2⟩
    · rintro ⟨c1', c2', heq, h1, h2, h3⟩
      obtain ⟨rfl, rfl⟩ : c1 = c1' ∧ c2 = c2' := by
        simpa using heq
      simp [h1, h2, h3]
  | c1 :: c2 :: p :: rest =>
    constructor
    · intro h
      rw [show spellsGroups (c1 :: c2 :: p :: rest) [b] =
          (isHex c1 && isHex c2 && (unhex c1 * 16 + unhex c2 == b) &&
           (p == percentMark) && spellsGroups rest []) from rfl,
        spellsGroups_nil_right] at h
      simp at h
    · rintro ⟨c1', c2', heq, _, _, _⟩
      simp at heq

theorem spellsGroups_more_iff (sp : Str) (b b' : Nat) (bs : List Nat) :
    spellsGroups sp (b :: b' :: bs) = true ↔
      ∃ c1 c2 rest, sp = c1 :: c2 :: percentMark :: rest ∧ isHex c1 = true ∧
        isHex c2 = true ∧ unhex c1 * 16 + unhex c2 = b ∧
        spellsGroups rest (b' :: bs) = true := by
  match sp with
  | [] => simp [spellsGroups]
  | [c] => simp [spellsGroups]
  | [c1, c2] =>
    constructor
    · intro h
      exact absurd h (by rw [show spellsGroups [c1, c2] (b :: b' :: bs) =
        false from rfl]; simp)
    · rintro ⟨c1', c2', rest', heq, _⟩
      simp at heq
  | c1 :: c2 :: p :: rest =>
    rw [spellsGroups_more]
    constructor
    · intro h
      simp only [Bool.and_eq_true, beq_iff_eq] at h
      obtain ⟨⟨⟨⟨h1, h2⟩, h3⟩, h4⟩, h5⟩ := h
      exact ⟨c1, c2, rest, by rw [h4], h1, h2, h3, h5⟩
    · rintro ⟨c1', c2', rest', heq, h1, h2, h3, h5⟩
      obtain ⟨rfl, rfl, rfl, rfl⟩ :
          c1 = c1' ∧ c2 = c2' ∧ p = percentMark ∧ rest = rest' := by
        simpa using heq
      simp [h1, h2, h3, h5]

end GoUri

namespace GoUri

theorem unescapePercentEncoding_err_step (s : Str) (e : Err)
    (h : unescapeSequence s = .error e) :
    unescapePercentEncoding s = .error e := by
  unfold unescapePercentEncoding
  rw [h]

theorem unescapePercentEncoding_ok_step (s : Str) (b0 : Nat)
    (h : unescapeSequence s = .ok b0) :
    unescapePercentEncoding s =
      if b0 ≥ 0xC0 then upe2 b0 (s.drop 2) else upeFinish [b0] 2 := by
  unfold unescapePercentEncoding
  rw [h]

theorem upe2_nil (b0 : Nat) : upe2 b0 [] = .error plainErr := rfl

theorem upe3_nil (b0 b1 : Nat) : upe3 b0 b1 [] = .error plainErr := rfl

theorem upe4_nil (b0 b1 b2 : Nat) : upe4 b0 b1 b2 [] = .error plainErr := rfl

theorem upe2_cons (b0 c : Nat) (rest1 : Str) :
    upe2 b0 (c :: rest1) =
      if c ≠ percentMark then .error plainErr
      else match unescapeSequence rest1 with
      | .error e => .error e
      | .ok b1 =>
        if b0 ≥ 0xE0 then upe3 b0 b1 (rest1.drop 2)
        else upeFinish [b0, b1] 5 := rfl

theorem upe3_cons (b0 b1 c : Nat) (rest2 : Str) :
    upe3 b0 b1 (c :: rest2) =
      if c ≠ percentMark then .error plainErr
      else match unescapeSequence rest2 with
      | .error e => .error e
      | .ok b2 =>
        if b0 ≥ 0xF0 then upe4 b0 b1 b2 (rest2.drop 2)
        else upeFinish [b0, b1, b2] 8 := rfl

theorem upe4_cons (b0 b1 b2 c : Nat) (rest3 : Str) :
    upe4 b0 b1 b2 (c :: rest3) =
      if c ≠ percentMark then .error plainErr
      else match unescapeSequence rest3 with
      | .error e => .error e
      | .ok b3 => upeFinish [b0, b1, b2, b3] 11 := rfl

theorem upe2_ok (b0 : Nat) (rest1 : Str) (b1 : Nat)
    (h : unescapeSequence rest1 = .ok b1) :
    upe2 b0 (percentMark :: rest1) =
      if b0 ≥ 0xE0 then upe3 b0 b1 (rest1.drop 2)
      else upeFinish [b0, b1] 5 := by
  rw [upe2_cons, if_neg (by simp), h]

theorem upe3_ok (b0 b1 : Nat) (rest2 : Str) (b2 : Nat)
    (h : unescapeSequence rest2 = .ok b2) :
    upe3 b0 b1 (percentMark :: rest2) =
      if b0 ≥ 0xF0 then upe4 b0 b1 b2 (rest2.drop 2)
      else upeFinish [b0, b1, b2] 8 := by
  rw [upe3_cons, if_neg (by simp), h]

theorem upe4_ok (b0 b1 b2 : Nat) (rest3 : Str) (b3 : Nat)
    (h : unescapeSequence rest3 = .ok b3) :
    upe4 b0 b1 b2 (percentMark :: rest3) = upeFinish [b0, b1, b2, b3] 11 := by
  rw [upe4_cons, if_neg (by simp), h]

end GoUri

namespace GoUri

theorem upeFinish_ok_iff (bytes : List Nat) (offset r n : Nat) :
    upeFinish bytes offset = .ok (r, n) ↔
      ((utf8DecodeRune bytes).1 = r ∧ r ≠ runeError ∧ n = offset) := by
  unfold upeFinish
  by_cases hd : (utf8DecodeRune bytes).1 = runeError
  · rw [if_pos hd]
    constructor
    · intro h
      simp at h
    · rintro ⟨rfl, hne, _⟩
      exact absurd hd hne
  · rw [if_neg hd]
    constructor
    · intro h
      simp only [Except.ok.injEq, Prod.mk.injEq] at h
      exact ⟨h.1, h.1 ▸ hd, h.2.symm⟩
    · rintro ⟨rfl, _, rfl⟩
      rfl

end GoUri

namespace GoUri

set_option maxHeartbeats 1000000 in
theorem upe_mp (s : Str) (r n : Nat)
    (h : unescapePercentEncoding s = .ok (r, n)) :
    IsValidScalar r ∧ r ≠ runeError ∧
    ∃ spelled t, s = spelled ++ t ∧ spelled.length = n ∧
      spellsGroups spelled (utf8Encode r) = true := by
  cases hseq : unescapeSequence s with
  | error e =>
    rw [unescapePercentEncoding_err_step s e hseq] at h
    simp at h
  | ok b0 =>
    rw [unescapePercentEncoding_ok_step s b0 hseq] at h
    obtain ⟨c1, c2, t0, rfl, hx1, hx2, hb0⟩ :=
      (unescapeSequence_ok_iff _ _).mp hseq
    by_cases hc : b0 ≥ 0xC0
    · rw [if_pos hc] at h
      simp only [List.drop_succ_cons, List.drop_zero] at h
      cases t0 with
      | nil =>
        rw [upe2_nil] at h
        simp at h
      | cons c rest1 =>
        rw [upe2_cons] at h
        by_cases hp : c = percentMark
        · subst hp
          rw [if_neg (by simp)] at h
          split at h
          · simp at h
          · rename_i b1 heq1
            obtain ⟨c3, c4, t1, rfl, hy1, hy2, hb1⟩ :=
              (unescapeSequence_ok_iff _ _).mp heq1
            by_cases he : b0 ≥ 0xE0
            · rw [if_pos he] at h
              simp only [List.drop_succ_cons, List.drop_zero] at h
              cases t1 with
              | nil =>
                rw [upe3_nil] at h
                simp at h
              | cons c' rest2 =>
                rw [upe3_cons] at h
                by_cases hp' : c' = percentMark
                · subst hp'
                  rw [if_neg (by simp)] at h
                  split at h
                  · simp at h
                  · rename_i b2 heq2
                    obtain ⟨c5, c6, t2, rfl, hz1, hz2, hb2⟩ :=
                      (unescapeSequence_ok_iff _ _).mp heq2
                    by_cases hf : b0 ≥ 0xF0
                    · rw [if_pos hf] at h
                      simp only [List.drop_succ_cons, List.drop_zero] at h
                      cases t2 with
                      | nil =>
                        rw [upe4_nil] at h
                        simp at h
                      | cons c'' rest3 =>
                        rw [upe4_cons] at h
                        by_cases hp'' : c'' = percentMark
                        · subst hp''
                          rw [if_neg (by simp)] at h
                          split at h
                          · simp at h
                          · rename_i b3 heq3
                            obtain ⟨c7, c8, t3, rfl, hw1, hw2, hb3⟩ :=
                              (unescapeSequence_ok_iff _ _).mp heq3
                            rw [upeFinish_ok_iff] at h
                            obtain ⟨hd, hne, rfl⟩ := h
                            rw [utf8DecodeRune_cons] at hd
                            unfold utf8DecodeCont at hd
                            rw [if_neg (by omega), if_neg (by omega),
                              if_neg (by omega), if_neg (by omega)] at hd
                            by_cases h5 : b0 < 0xF5
                            · rw [if_pos h5, utf8Decode4_cons] at hd
                              by_cases hcond :
                                  ((if b0 = 0xF0 then 0x90 else 0x80) ≤ b1 ∧
                                   b1 ≤ (if b0 = 0xF4 then 0x8F else 0xBF)) ∧
                                  (0x80 ≤ b2 ∧ b2 ≤ 0xBF) ∧
                                  (0x80 ≤ b3 ∧ b3 ≤ 0xBF)
                              · rw [if_pos hcond] at hd
                                simp only at hd
                                have h1'' : b1 ≤ 0xBF := by
                                  have := hcond.1.2
                                  by_cases hF4 : b0 = 0xF4
                                  · rw [if_pos hF4] at this
                                    omega
                                  · rw [if_neg hF4] at this
                                    omega
                                obtain ⟨henc, hval, _⟩ :=
                                  encode4_of_bytes b0 b1 b2 b3 (by omega) h5
                                    hcond.1.1 hcond.1.2 h1''
                                    hcond.2.1.1 hcond.2.1.2
                                    hcond.2.2.1 hcond.2.2.2
                                refine ⟨hd ▸ hval, hne,
                                  [c1, c2, percentMark, c3, c4, percentMark,
                                   c5, c6, percentMark, c7, c8], t3,
                                  rfl, rfl, ?_⟩
                                rw [← hd, henc, spellsGroups_more,
                                  spellsGroups_more, spellsGroups_more,
                                  spellsGroups_two]
                                simp [hx1, hx2, hb0, hy1, hy2, hb1,
                                  hz1, hz2, hb2, hw1, hw2, hb3]
                              · rw [if_neg hcond] at hd
                                simp only at hd
                                exact absurd hd.symm hne
                            · rw [if_neg h5] at hd
                              simp only at hd
                              exact absurd hd.symm hne
                        · rw [if_pos (by simpa using hp'')] at h
                          simp at h
                    · rw [if_neg hf] at h
                      rw [upeFinish_ok_iff] at h
                      obtain ⟨hd, hne, rfl⟩ := h
                      rw [utf8DecodeRune_cons] at hd
                      unfold utf8DecodeCont at hd
                      rw [if_neg (by omega), if_neg (by omega),
                        if_neg (by omega), if_pos (by omega),
                        utf8Decode3_cons] at hd
                      by_cases hcond :
                          ((if b0 = 0xE0 then 0xA0 else 0x80) ≤ b1 ∧
                           b1 ≤ (if b0 = 0xED then 0x9F else 0xBF)) ∧
                          (0x80 ≤ b2 ∧ b2 ≤ 0xBF)
                      · rw [if_pos hcond] at hd
                        simp only at hd
                        have h1'' : b1 ≤ 0xBF := by
                          have := hcond.1.2
                          by_cases hED : b0 = 0xED
                          · rw [if_pos hED] at this
                            omega
                          · rw [if_neg hED] at this
                            omega
                        obtain ⟨henc, hval⟩ :=
                          encode3_of_bytes b0 b1 b2 (by omega) (by omega)
                            hcond.1.1 hcond.1.2 h1'' hcond.2.1 hcond.2.2
                        refine ⟨hd ▸ hval, hne,
                          [c1, c2, percentMark, c3, c4, percentMark, c5, c6],
                          t2, rfl, rfl, ?_⟩
                        rw [← hd, henc, spellsGroups_more, spellsGroups_more,
                          spellsGroups_two]
                        simp [hx1, hx2, hb0, hy1, hy2, hb1, hz1, hz2, hb2]
                      · rw [if_neg hcond] at hd
                        simp only at hd
                        exact absurd hd.symm hne
                · rw [if_pos (by simpa using hp')] at h
                  simp at h
            · rw [if_neg he] at h
              rw [upeFinish_ok_iff] at h
              obtain ⟨hd, hne, rfl⟩ := h
              rw [utf8DecodeRune_cons] at hd
              unfold utf8DecodeCont at hd
              by_cases hc2 : b0 < 0xC2
              · rw [if_neg (by omega), if_pos hc2] at hd
                simp only at hd
                exact absurd hd.symm hne
              · rw [if_neg (by omega), if_neg hc2, if_pos (by omega),
                  utf8Decode2_cons] at hd
                by_cases hcond : 0x80 ≤ b1 ∧ b1 ≤ 0xBF
                · rw [if_pos hcond] at hd
                  simp only at hd
                  obtain ⟨henc, hval, _⟩ :=
                    encode2_of_bytes b0 b1 (by omega) (by omega)
                      hcond.1 hcond.2
                  refine ⟨hd ▸ hval, hne,
                    [c1, c2, percentMark, c3, c4], t1, rfl, rfl, ?_⟩
                  rw [← hd, henc, spellsGroups_more, spellsGroups_two]
                  simp [hx1, hx2, hb0, hy1, hy2, hb1]
                · rw [if_neg hcond] at hd
                  simp only at hd
                  exact absurd hd.symm hne
        · rw [if_pos (by simpa using hp)] at h
          simp at h
    · rw [if_neg hc] at h
      rw [upeFinish_ok_iff] at h
      obtain ⟨hd, hne, rfl⟩ := h
      rw [utf8DecodeRune_cons] at hd
      by_cases ha : b0 < 0x80
      · rw [utf8DecodeCont_ascii b0 [] ha] at hd
        simp only at hd
        subst hd
        refine ⟨⟨by omega, by omega⟩, hne, [c1, c2], t0, rfl, rfl, ?_⟩
        rw [show utf8Encode b0 = [b0] from by
          unfold utf8Encode
          rw [if_pos ha], spellsGroups_two]
        simp [hx1, hx2, hb0]
      · unfold utf8DecodeCont at hd
        rw [if_neg ha, if_pos (by omega)] at hd
        simp only at hd
        exact absurd hd.symm hne

end GoUri

namespace GoUri

set_option maxHeartbeats 1000000 in
theorem upe_mpr (r : Nat) (hval : IsValidScalar r) (hne : r ≠ runeError)
    (spelled t : Str) (hsp : spellsGroups spelled (utf8Encode r) = true) :
    unescapePercentEncoding (spelled ++ t) = .ok (r, spelled.length) := by
  obtain ⟨hr1, hr2⟩ := hval
  have hdec0 := utf8_decode_encode r ⟨hr1, hr2⟩ []
  by_cases hA : r < 0x80
  · have henc : utf8Encode r = [r] := by
      unfold utf8Encode
      rw [if_pos hA]
    rw [henc] at hsp
    obtain ⟨c1, c2, hshape, h1, h2, hv⟩ := (spellsGroups_one_iff _ _).mp hsp
    subst hshape
    simp only [List.cons_append, List.nil_append]
    have hseq : unescapeSequence (c1 :: c2 :: t) = .ok r := by
      rw [unescapeSequence_cons2, if_neg (by simp [h1, h2]), hv]
    rw [unescapePercentEncoding_ok_step _ r hseq, if_neg (by omega)]
    unfold upeFinish
    rw [utf8DecodeRune_cons, utf8DecodeCont_ascii r [] hA,
      if_neg (by simpa using hne)]
    rfl
  · by_cases hB : r < 0x800
    · have henc : utf8Encode r = [0xC0 + r / 0x40, 0x80 + r % 0x40] := by
        unfold utf8Encode
        rw [if_neg hA, if_pos hB]
      rw [henc] at hsp
      obtain ⟨c1, c2, rest, hshape, h1, h2, hv, hsp2⟩ :=
        (spellsGroups_more_iff _ _ _ _).mp hsp
      obtain ⟨c3, c4, hshape2, h3, h4, hv2⟩ :=
        (spellsGroups_one_iff _ _).mp hsp2
      subst hshape2
      subst hshape
      simp only [List.cons_append, List.nil_append]
      have hseq : unescapeSequence
          (c1 :: c2 :: percentMark :: c3 :: c4 :: t) = .ok (0xC0 + r / 0x40) := by
        rw [unescapeSequence_cons2, if_neg (by simp [h1, h2]), hv]
      have hseq2 : unescapeSequence (c3 :: c4 :: t) = .ok (0x80 + r % 0x40) := by
        rw [unescapeSequence_cons2, if_neg (by simp [h3, h4]), hv2]
      rw [unescapePercentEncoding_ok_step _ _ hseq, if_pos (by omega)]
      simp only [List.drop_succ_cons, List.drop_zero]
      rw [upe2_ok _ _ _ hseq2, if_neg (by omega)]
      unfold upeFinish
      rw [henc] at hdec0
      rw [show ([0xC0 + r / 0x40, 0x80 + r % 0x40] ++ [] : Str) =
        [0xC0 + r / 0x40, 0x80 + r % 0x40] from by simp] at hdec0
      rw [hdec0, if_neg (by simpa using hne)]
      rfl
    · by_cases hC : r < 0x10000
      · have henc : utf8Encode r =
            [0xE0 + r / 0x1000, 0x80 + (r / 0x40) % 0x40, 0x80 + r % 0x40] := by
          unfold utf8Encode
          rw [if_neg hA, if_neg hB, if_pos hC]
        rw [henc] at hsp
        obtain ⟨c1, c2, rest, hshape, h1, h2, hv, hsp2⟩ :=
          (spellsGroups_more_iff _ _ _ _).mp hsp
        obtain ⟨c3, c4, rest2, hshape2, h3, h4, hv2, hsp3⟩ :=
          (spellsGroups_more_iff _ _ _ _).mp hsp2
        obtain ⟨c5, c6, hshape3, h5, h6, hv3⟩ :=
          (spellsGroups_one_iff _ _).mp hsp3
        subst hshape3
        subst hshape2
        subst hshape
        simp only [List.cons_append, List.nil_append]
        have hseq : unescapeSequence
            (c1 :: c2 :: percentMark :: c3 :: c4 :: percentMark ::
             c5 :: c6 :: t) = .ok (0xE0 + r / 0x1000) := by
          rw [unescapeSequence_cons2, if_neg (by simp [h1, h2]), hv]
        have hseq2 : unescapeSequence
            (c3 :: c4 :: percentMark :: c5 :: c6 :: t) =
              .ok (0x80 + (r / 0x40) % 0x40) := by
          rw [unescapeSequence_cons2, if_neg (by simp [h3, h4]), hv2]
        have hseq3 : unescapeSequence (c5 :: c6 :: t) =
            .ok (0x80 + r % 0x40) := by
          rw [unescapeSequence_cons2, if_neg (by simp [h5, h6]), hv3]
        rw [unescapePercentEncoding_ok_step _ _ hseq, if_pos (by omega)]
        simp only [List.drop_succ_cons, List.drop_zero]
        rw [upe2_ok _ _ _ hseq2, if_pos (by omega)]
        simp only [List.drop_succ_cons, List.drop_zero]
        rw [upe3_ok _ _ _ _ hseq3, if_neg (by omega)]
        unfold upeFinish
        rw [henc] at hdec0
        rw [show ([0xE0 + r / 0x1000, 0x80 + (r / 0x40) % 0x40,
            0x80 + r % 0x40] ++ [] : Str) =
          [0xE0 + r / 0x1000, 0x80 + (r / 0x40) % 0x40, 0x80 + r % 0x40]
          from by simp] at hdec0
        rw [hdec0, if_neg (by simpa using hne)]
        rfl
      · have henc : utf8Encode r =
            [0xF0 + r / 0x40000, 0x80 + (r / 0x1000) % 0x40,
             0x80 + (r / 0x40) % 0x40, 0x80 + r % 0x40] := by
          unfold utf8Encode
          rw [if_neg hA, if_neg hB, if_neg hC]
        rw [henc] at hsp
        obtain ⟨c1, c2, rest, hshape, h1, h2, hv, hsp2⟩ :=
          (spellsGroups_more_iff _ _ _ _).mp hsp
        obtain ⟨c3, c4, rest2, hshape2, h3, h4, hv2, hsp3⟩ :=
          (spellsGroups_more_iff _ _ _ _).mp hsp2
        obtain ⟨c5, c6, rest3, hshape3, h5, h6, hv3, hsp4⟩ :=
          (spellsGroups_more_iff _ _ _ _).mp hsp3
        obtain ⟨c7, c8, hshape4, h7, h8, hv4⟩ :=
          (spellsGroups_one_iff _ _).mp hsp4
        subst hshape4
        subst hshape3
        subst hshape2
        subst hshape
        simp only [List.cons_append, List.nil_append]
        have hseq : unescapeSequence
            (c1 :: c2 :: percentMark :: c3 :: c4 :: percentMark ::
             c5 :: c6 :: percentMark :: c7 :: c8 :: t) =
              .ok (0xF0 + r / 0x40000) := by
          rw [unescapeSequence_cons2, if_neg (by simp [h1, h2]), hv]
        have hseq2 : unescapeSequence
            (c3 :: c4 :: percentMark :: c5 :: c6 :: percentMark ::
             c7 :: c8 :: t) = .ok (0x80 + (r / 0x1000) % 0x40) := by
          rw [unescapeSequence_cons2, if_neg (by simp [h3, h4]), hv2]
        have hseq3 : unescapeSequence
            (c5 :: c6 :: percentMark :: c7 :: c8 :: t) =
              .ok (0x80 + (r / 0x40) % 0x40) := by
          rw [unescapeSequence_cons2, if_neg (by simp [h5, h6]), hv3]
        have hseq4 : unescapeSequence (c7 :: c8 :: t) =
            .ok (0x80 + r % 0x40) := by
          rw [unescapeSequence_cons2, if_neg (by simp [h7, h8]), hv4]
        rw [unescapePercentEncoding_ok_step _ _ hseq, if_pos (by omega)]
        simp only [List.drop_succ_cons, List.drop_zero]
        rw [upe2_ok _ _ _ hseq2, if_pos (by omega)]
        simp only [List.drop_succ_cons, List.drop_zero]
        rw [upe3_ok _ _ _ _ hseq3, if_pos (by omega)]
        simp only [List.drop_succ_cons, List.drop_zero]
        rw [upe4_ok _ _ _ _ _ hseq4]
        unfold upeFinish
        rw [henc] at hdec0
        rw [show ([0xF0 + r / 0x40000, 0x80 + (r / 0x1000) % 0x40,
            0x80 + (r / 0x40) % 0x40, 0x80 + r % 0x40] ++ [] : Str) =
          [0xF0 + r / 0x40000, 0x80 + (r / 0x1000) % 0x40,
           0x80 + (r / 0x40) % 0x40, 0x80 + r % 0x40] from by simp] at hdec0
        rw [hdec0, if_neg (by simpa using hne)]
        rfl

end GoUri

namespace GoUri

/-- C4: `unescapePercentEncoding` (decode.go) succeeds with result `(r, n)`
exactly when the input starts with `%HH` groups that spell the UTF-8
encoding of a Unicode scalar `r` that is not U+FFFD (`utf8.RuneError`), and
`n` is the number of input bytes those groups occupy (2, 5, 8 or 11).  This
amends the claim: the claim's "byte sequence that is the UTF-8 encoding of
some Unicode scalar" must exclude U+FFFD itself, which the final
`unescapedRune == utf8.RuneError` guard rejects even though `EF BF BD` is a
perfectly well-formed UTF-8 encoding of the scalar U+FFFD. -/
theorem unescapePercentEncoding_characterization (s : Str) (r n : Nat) :
    unescapePercentEncoding s = .ok (r, n) ↔
      (IsValidScalar r ∧ r ≠ runeError ∧
       ∃ spelled t, s = spelled ++ t ∧ spelled.length = n ∧
         spellsGroups spelled (utf8Encode r) = true) := by
  constructor
  · exact upe_mp s r n
  · rintro ⟨hval, hne, spelled, t, rfl, rfl, hsp⟩
    exact upe_mpr r hval hne spelled t hsp

/-- C4 counterexample: positioned after an opening `%`, the input
`EF%BF%BD` spells the three bytes `EF BF BD`, which are the UTF-8 encoding
of the Unicode scalar U+FFFD; the claim then demands that
`unescapePercentEncoding` return that scalar, but the code returns an
error. -/
theorem percent_fffd_rejected :
    spellsGroups (mkStr "EF%BF%BD") (utf8Encode 0xFFFD) = true ∧
    IsValidScalar 0xFFFD ∧
    unescapePercentEncoding (mkStr "EF%BF%BD") = .error plainErr := by
  exact ⟨by decide, by decide, by rfl⟩

end GoUri

namespace GoUri

set_option maxHeartbeats 1000000 in
theorem utf8DecodeRune_ok_inv (s ext : Str) (r k : Nat)
    (h : utf8DecodeRune s = (r, k)) (hne : r ≠ runeError) :
    utf8DecodeRune (s ++ ext) = (r, k) ∧ 1 ≤ k ∧ k ≤ s.length ∧
      (r < 0x80 → k = 1) := by
  cases s with
  | nil =>
    rw [utf8DecodeRune_nil] at h
    simp only [Prod.mk.injEq] at h
    exact absurd h.1.symm hne
  | cons b rest =>
    rw [utf8DecodeRune_cons] at h
    rw [List.cons_append, utf8DecodeRune_cons]
    by_cases ha : b < 0x80
    · rw [utf8DecodeCont_ascii b rest ha] at h
      rw [utf8DecodeCont_ascii b (rest ++ ext) ha]
      simp only [Prod.mk.injEq] at h
      obtain ⟨rfl, rfl⟩ := h
      exact ⟨rfl, by omega, by simp, fun _ => rfl⟩
    · unfold utf8DecodeCont at h ⊢
      rw [if_neg ha] at h ⊢
      by_cases hb : b < 0xC2
      · rw [if_pos hb] at h
        simp only [Prod.mk.injEq] at h
        exact absurd h.1.symm hne
      · rw [if_neg hb] at h ⊢
        by_cases hc : b < 0xE0
        · rw [if_pos hc] at h ⊢
          cases rest with
          | nil =>
            rw [show utf8Decode2 b [] = (runeError, 1) from rfl] at h
            simp only [Prod.mk.injEq] at h
            exact absurd h.1.symm hne
          | cons b1 rest' =>
            rw [utf8Decode2_cons] at h
            rw [List.cons_append, utf8Decode2_cons]
            by_cases hcond : 0x80 ≤ b1 ∧ b1 ≤ 0xBF
            · rw [if_pos hcond] at h ⊢
              simp only [Prod.mk.injEq] at h
              obtain ⟨rfl, rfl⟩ := h
              refine ⟨rfl, by omega, by simp, fun hlt => by omega⟩
            · rw [if_neg hcond] at h
              simp only [Prod.mk.injEq] at h
              exact absurd h.1.symm hne
        · rw [if_neg hc] at h ⊢
          by_cases hd : b < 0xF0
          · rw [if_pos hd] at h ⊢
            match rest with
            | [] =>
              rw [show utf8Decode3 b [] = (runeError, 1) from rfl] at h
              simp only [Prod.mk.injEq] at h
              exact absurd h.1.symm hne
            | [b1] =>
              rw [show utf8Decode3 b [b1] = (runeError, 1) from rfl] at h
              simp only [Prod.mk.injEq] at h
              exact absurd h.1.symm hne
            | b1 :: b2 :: rest' =>
              rw [utf8Decode3_cons] at h
              rw [List.cons_append, List.cons_append, utf8Decode3_cons]
              by_cases hcond :
                  ((if b = 0xE0 then 0xA0 else 0x80) ≤ b1 ∧
                   b1 ≤ (if b = 0xED then 0x9F else 0xBF)) ∧
                  (0x80 ≤ b2 ∧ b2 ≤ 0xBF)
              · rw [if_pos hcond] at h ⊢
                simp only [Prod.mk.injEq] at h
                obtain ⟨rfl, rfl⟩ := h
                have hb1 : 0x80 ≤ b1 := by
                  have := hcond.1.1
                  by_cases hx : b = 0xE0
                  · rw [if_pos hx] at this
                    omega
                  · rw [if_neg hx] at this
                    omega
                have hlow : ¬(b = 0xE0 ∧ b1 < 0xA0) := by
                  intro hx
                  have := hcond.1.1
                  rw [if_pos hx.1] at this
                  omega
                refine ⟨rfl, by omega, by simp, fun hlt => by omega⟩
              · rw [if_neg hcond] at h
                simp only [Prod.mk.injEq] at h
                exact absurd h.1.symm hne
          · rw [if_neg hd] at h ⊢
            by_cases he : b < 0xF5
            · rw [if_pos he] at h ⊢
              match rest with
              | [] =>
                rw [show utf8Decode4 b [] = (runeError, 1) from rfl] at h
                simp only [Prod.mk.injEq] at h
                exact absurd h.1.symm hne
              | [b1] =>
                rw [show utf8Decode4 b [b1] = (runeError, 1) from rfl] at h
                simp only [Prod.mk.injEq] at h
                exact absurd h.1.symm hne
              | [b1, b2] =>
                rw [show utf8Decode4 b [b1, b2] = (runeError, 1) from rfl]
                  at h
                simp only [Prod.mk.injEq] at h
                exact absurd h.1.symm hne
              | b1 :: b2 :: b3 :: rest' =>
                rw [utf8Decode4_cons] at h
                rw [List.cons_append, List.cons_append, List.cons_append,
                  utf8Decode4_cons]
                by_cases hcond :
                    ((if b = 0xF0 then 0x90 else 0x80) ≤ b1 ∧
                     b1 ≤ (if b = 0xF4 then 0x8F else 0xBF)) ∧
                    (0x80 ≤ b2 ∧ b2 ≤ 0xBF) ∧ (0x80 ≤ b3 ∧ b3 ≤ 0xBF)
                · rw [if_pos hcond] at h ⊢
                  simp only [Prod.mk.injEq] at h
                  obtain ⟨rfl, rfl⟩ := h
                  have hb1 : 0x80 ≤ b1 := by
                    have := hcond.1.1
                    by_cases hx : b = 0xF0
                    · rw [if_pos hx] at this
                      omega
                    · rw [if_neg hx] at this
                      omega
                  have hlow : ¬(b = 0xF0 ∧ b1 < 0x90) := by
                    intro hx
                    have := hcond.1.1
                    rw [if_pos hx.1] at this
                    omega
                  refine ⟨rfl, by omega, by simp, fun hlt => by omega⟩
                · rw [if_neg hcond] at h
                  simp only [Prod.mk.injEq] at h
                  exact absurd h.1.symm hne
            · rw [if_neg he] at h
              simp only [Prod.mk.injEq] at h
              exact absurd h.1.symm hne

end GoUri

namespace GoUri

theorem upe_prefix (s ext : Str) (r off : Nat)
    (h : unescapePercentEncoding s = .ok (r, off)) :
    unescapePercentEncoding (s ++ ext) = .ok (r, off) := by
  obtain ⟨hval, hne, spelled, t, rfl, rfl, hsp⟩ := upe_mp _ _ _ h
  rw [List.append_assoc]
  exact upe_mpr r hval hne spelled (t ++ ext) hsp

theorem upe_consumed (s : Str) (r off : Nat)
    (h : unescapePercentEncoding s = .ok (r, off)) : off ≤ s.length := by
  obtain ⟨_, _, spelled, t, rfl, rfl, _⟩ := upe_mp _ _ _ h
  simp

theorem uweLoop_succ_cons (T : HighRuneClasses) (fuel b : Nat) (rest : Str)
    (acceptedRunes : List Nat) :
    uweLoop T (fuel + 1) (b :: rest) acceptedRunes =
      (if (utf8DecodeRune (b :: rest)).1 = runeError then
        some (errorsJoin errInvalidEscaping plainErr)
      else if (utf8DecodeRune (b :: rest)).1 = percentMark then
        match List.drop ((utf8DecodeRune (b :: rest)).2 - 1) rest with
        | [] => some (errorsJoin errInvalidEscaping plainErr)
        | a :: after' =>
          match unescapePercentEncoding (a :: after') with
          | .error e => some (errorsJoin errInvalidEscaping e)
          | .ok (_, offset) =>
            uweLoop T fuel (List.drop (offset - 1) after') acceptedRunes
      else if !uniIsLetter T (utf8DecodeRune (b :: rest)).1 &&
          !uniIsDigit T (utf8DecodeRune (b :: rest)).1 &&
          (utf8DecodeRune (b :: rest)).1 ≠ 0x2D &&
          (utf8DecodeRune (b :: rest)).1 ≠ 0x2E &&
          (utf8DecodeRune (b :: rest)).1 ≠ 0x5F &&
          (utf8DecodeRune (b :: rest)).1 ≠ 0x7E &&
          !isUcsChar (utf8DecodeRune (b :: rest)).1 &&
          (utf8DecodeRune (b :: rest)).1 ≠ 0x21 &&
          (utf8DecodeRune (b :: rest)).1 ≠ 0x24 &&
          (utf8DecodeRune (b :: rest)).1 ≠ 0x26 &&
          (utf8DecodeRune (b :: rest)).1 ≠ 0x27 &&
          (utf8DecodeRune (b :: rest)).1 ≠ 0x28 &&
          (utf8DecodeRune (b :: rest)).1 ≠ 0x29 &&
          (utf8DecodeRune (b :: rest)).1 ≠ 0x2A &&
          (utf8DecodeRune (b :: rest)).1 ≠ 0x2B &&
          (utf8DecodeRune (b :: rest)).1 ≠ 0x2C &&
          (utf8DecodeRune (b :: rest)).1 ≠ 0x3B &&
          (utf8DecodeRune (b :: rest)).1 ≠ 0x3D &&
          !(acceptedRunes.contains (utf8DecodeRune (b :: rest)).1) then
        some plainErr
      else
        uweLoop T fuel (List.drop ((utf8DecodeRune (b :: rest)).2 - 1) rest)
          acceptedRunes) := rfl

end GoUri

namespace GoUri

set_option maxHeartbeats 1000000 in
theorem uweLoop_fuel (T : HighRuneClasses) (acceptedRunes : List Nat) :
    ∀ n (s : Str) (f g : Nat), s.length ≤ n → s.length < f →
      s.length < g →
      uweLoop T f s acceptedRunes = uweLoop T g s acceptedRunes := by
  intro n
  induction n with
  | zero =>
    intro s f g hn hf hg
    have hs : s = [] := by
      cases s
      · rfl
      · simp at hn
    subst hs
    cases f with
    | zero => omega
    | succ f' =>
      cases g with
      | zero => omega
      | succ g' => rfl
  | succ n ih =>
    intro s f g hn hf hg
    cases s with
    | nil =>
      cases f with
      | zero => omega
      | succ f' =>
        cases g with
        | zero => omega
        | succ g' => rfl
    | cons b rest =>
      cases f with
      | zero => simp at hf
      | succ f' =>
        cases g with
        | zero => simp at hg
        | succ g' =>
          rw [uweLoop_succ_cons, uweLoop_succ_cons]
          have hrest : rest.length ≤ n := by
            simp at hn
            omega
          have hrestf : rest.length < f' := by
            simp at hf
            omega
          have hrestg : rest.length < g' := by
            simp at hg
            omega
          split
          · rfl
          · split
            · split
              · rfl
              · rename_i a after' hdrop
                have hafter : after'.length < rest.length + 1 := by
                  have := congrArg List.length hdrop
                  simp at this
                  have hd := List.length_drop
                    ((utf8DecodeRune (b :: rest)).2 - 1) rest
                  omega
                split
                · rfl
                · rename_i rv offset hupe
                  apply ih
                  · have := List.length_drop (offset - 1) after'
                    omega
                  · have := List.length_drop (offset - 1) after'
                    omega
                  · have := List.length_drop (offset - 1) after'
                    omega
            · split
              · rfl
              · apply ih
                · have := List.length_drop
                    ((utf8DecodeRune (b :: rest)).2 - 1) rest
                  omega
                · have := List.length_drop
                    ((utf8DecodeRune (b :: rest)).2 - 1) rest
                  omega
                · have := List.length_drop
                    ((utf8DecodeRune (b :: rest)).2 - 1) rest
                  omega

theorem uweLoop_eq_validate (T : HighRuneClasses) (acceptedRunes : List Nat)
    (f : Nat) (s : Str) (hf : s.length < f) :
    uweLoop T f s acceptedRunes =
      validateUnreservedWithExtra T s acceptedRunes := by
  unfold validateUnreservedWithExtra
  exact uweLoop_fuel T acceptedRunes s.length s f (s.length + 1) le_rfl hf
    (by omega)

end GoUri

namespace GoUri

set_option maxHeartbeats 1000000 in
theorem uwe_extend (T : HighRuneClasses) (acceptedRunes : List Nat) :
    ∀ n (pre ext : Str), pre.length ≤ n →
      validateUnreservedWithExtra T pre acceptedRunes = none →
      validateUnreservedWithExtra T (pre ++ ext) acceptedRunes =
        validateUnreservedWithExtra T ext acceptedRunes := by
  intro n
  induction n with
  | zero =>
    intro pre ext hn _
    have hs : pre = [] := by
      cases pre
      · rfl
      · simp at hn
    subst hs
    simp
  | succ n ih =>
    intro pre ext hn hpre
    cases pre with
    | nil => simp
    | cons b rest =>
      unfold validateUnreservedWithExtra at hpre ⊢
      rw [uweLoop_succ_cons] at hpre
      rw [List.cons_append, uweLoop_succ_cons]
      rcases hdec : utf8DecodeRune (b :: rest) with ⟨r, k⟩
      rw [hdec] at hpre
      dsimp only at hpre
      by_cases h1 : r = runeError
      · rw [if_pos h1] at hpre
        exact Option.noConfusion hpre
      · obtain ⟨hext, hk1, hk2, hascii⟩ :=
          utf8DecodeRune_ok_inv (b :: rest) ext r k hdec h1
        rw [List.cons_append] at hext
        rw [hext]
        dsimp only
        rw [if_neg h1] at hpre ⊢
        by_cases h2 : r = percentMark
        · have hK : k = 1 := hascii (by rw [h2]; unfold percentMark; omega)
          subst hK
          rw [if_pos h2] at hpre ⊢
          rw [show (1 : Nat) - 1 = 0 from rfl, List.drop_zero] at hpre ⊢
          cases rest with
          | nil => exact Option.noConfusion hpre
          | cons a after' =>
            have hpre2 : (match unescapePercentEncoding (a :: after') with
                | Except.error e => some (errorsJoin errInvalidEscaping e)
                | Except.ok (_, offset) =>
                  uweLoop T (List.length (b :: a :: after'))
                    (List.drop (offset - 1) after') acceptedRunes) =
                none := hpre
            cases hupe : unescapePercentEncoding (a :: after') with
            | error e =>
              rw [hupe] at hpre2
              exact Option.noConfusion hpre2
            | ok p =>
              obtain ⟨rv, offset⟩ := p
              rw [hupe] at hpre2
              have hpre' : uweLoop T (List.length (b :: a :: after'))
                  (List.drop (offset - 1) after') acceptedRunes = none :=
                hpre2
              have hoff : offset ≤ after'.length + 1 := by
                have := upe_consumed _ _ _ hupe
                simpa using this
              have hupe' := upe_prefix (a :: after') ext rv offset hupe
              rw [List.cons_append] at hupe'
              show (match unescapePercentEncoding (a :: (after' ++ ext)) with
                | Except.error e => some (errorsJoin errInvalidEscaping e)
                | Except.ok (_, offset) =>
                  uweLoop T (List.length (b :: a :: (after' ++ ext)))
                    (List.drop (offset - 1) (after' ++ ext)) acceptedRunes) =
                uweLoop T (List.length ext + 1) ext acceptedRunes
              rw [hupe']
              show uweLoop T (List.length (b :: a :: (after' ++ ext)))
                (List.drop (offset - 1) (after' ++ ext)) acceptedRunes =
                uweLoop T (List.length ext + 1) ext acceptedRunes
              rw [List.drop_append_of_le_length (by omega)]
              rw [uweLoop_eq_validate T acceptedRunes _ _ (by
                have := List.length_drop (offset - 1) after'
                simp only [List.length_cons, List.length_append]
                omega)]
              rw [uweLoop_eq_validate T acceptedRunes _ _ (by
                have := List.length_drop (offset - 1) after'
                simp only [List.length_cons]
                omega)] at hpre'
              rw [ih (List.drop (offset - 1) after') ext (by
                have := List.length_drop (offset - 1) after'
                simp only [List.length_cons] at hn
                omega) hpre']
              rfl
        · rw [if_neg h2] at hpre ⊢
          split at hpre
          · exact Option.noConfusion hpre
          · rename_i hcondneg
            rw [if_neg hcondneg]
            have hpre' : uweLoop T (List.length (b :: rest))
                (List.drop (k - 1) rest) acceptedRunes = none := hpre
            have hkr : k - 1 ≤ rest.length := by
              simp only [List.length_cons] at hk2
              omega
            rw [List.drop_append_of_le_length hkr]
            rw [uweLoop_eq_validate T acceptedRunes _ _ (by
              have := List.length_drop (k - 1) rest
              simp only [List.length_cons, List.length_append]
              omega)]
            rw [uweLoop_eq_validate T acceptedRunes _ _ (by
              have := List.length_drop (k - 1) rest
              simp only [List.length_cons]
              omega)] at hpre'
            rw [ih (List.drop (k - 1) rest) ext (by
              have := List.length_drop (k - 1) rest
              simp only [List.length_cons] at hn
              omega) hpre']
            rfl

end GoUri

namespace GoUri

theorem uwe_percent_nil (T : HighRuneClasses) (extras : List Nat) :
    validateUnreservedWithExtra T [percentMark] extras =
      some (errorsJoin errInvalidEscaping plainErr) := by
  unfold validateUnreservedWithExtra
  rw [uweLoop_succ_cons]
  have hd : utf8DecodeRune [percentMark] = (percentMark, 1) := by
    rw [utf8DecodeRune_cons]
    exact utf8DecodeCont_ascii _ _ (by unfold percentMark; omega)
  rw [hd]
  dsimp only
  rw [if_neg (by unfold percentMark runeError; omega), if_pos rfl,
    show (1 : Nat) - 1 = 0 from rfl, List.drop_zero]

theorem uwe_percent_err (T : HighRuneClasses) (extras : List Nat) (a : Nat)
    (after' : Str) (e : Err)
    (h : unescapePercentEncoding (a :: after') = .error e) :
    validateUnreservedWithExtra T (percentMark :: a :: after') extras =
      some (errorsJoin errInvalidEscaping e) := by
  unfold validateUnreservedWithExtra
  rw [uweLoop_succ_cons]
  have hd : utf8DecodeRune (percentMark :: a :: after') = (percentMark, 1) := by
    rw [utf8DecodeRune_cons]
    exact utf8DecodeCont_ascii _ _ (by unfold percentMark; omega)
  rw [hd]
  dsimp only
  rw [if_neg (by unfold percentMark runeError; omega), if_pos rfl,
    show (1 : Nat) - 1 = 0 from rfl, List.drop_zero]
  show (match unescapePercentEncoding (a :: after') with
    | Except.error e => some (errorsJoin errInvalidEscaping e)
    | Except.ok (_, offset) =>
      uweLoop T (List.length (percentMark :: a :: after'))
        (List.drop (offset - 1) after') extras) =
    some (errorsJoin errInvalidEscaping e)
  rw [h]

/-- C5: amended.  An incomplete percent escape is reported as
`ErrInvalidEscaping` when the scanner reaches it: for every string of the
form `pre ++ "%" ++ rest` where `pre` passes the component scan on its own
and `rest` is an incomplete escape tail (empty, a single trailing hex
digit, or two characters at least one of which is not hex), the scan built
on `validateUnreservedWithExtra` rejects with an error carrying the
`invalidEscaping` kind.  (Without the condition on `pre` the claim is
false: an invalid character before the `%` makes the scan fail earlier
with a plain error that does not match `ErrInvalidEscaping` — see the
counterexample.) -/
theorem incomplete_escape_invalid_escaping (T : HighRuneClasses)
    (extras : List Nat) (pre rest : Str)
    (hpre : validateUnreservedWithExtra T pre extras = none)
    (htail : IncompleteEscapeTail rest) :
    ∃ e, validateUnreservedWithExtra T (pre ++ percentMark :: rest) extras =
        some e ∧ e.is .invalidEscaping = true := by
  rw [uwe_extend T extras pre.length pre (percentMark :: rest) le_rfl hpre]
  rcases htail with rfl | ⟨hh, rfl, hhex⟩ | ⟨c1, c2, t, rfl, hnothex⟩
  · exact ⟨_, uwe_percent_nil T extras, by decide⟩
  · refine ⟨_, uwe_percent_err T extras hh [] plainErr ?_, by decide⟩
    exact unescapePercentEncoding_err_step _ _ (unescapeSequence_one hh)
  · refine ⟨_, uwe_percent_err T extras c1 (c2 :: t) plainErr ?_, by decide⟩
    apply unescapePercentEncoding_err_step
    rw [unescapeSequence_cons2, if_pos (by
      cases h1 : isHex c1 <;> cases h2 : isHex c2 <;> simp_all)]

/-- Witness for `incomplete_escape_invalid_escaping`: the prefix `a`
passes the scan, and `a%` is rejected with an `invalidEscaping` error. -/
theorem incomplete_escape_invalid_escaping_witness :
    validateUnreservedWithExtra noHighRunes (mkStr "a") [] = none ∧
    ∃ e, validateUnreservedWithExtra noHighRunes
        (mkStr "a" ++ percentMark :: []) [] = some e ∧
      e.is .invalidEscaping = true :=
  ⟨by decide, incomplete_escape_invalid_escaping noHighRunes [] (mkStr "a")
    [] (by decide) (Or.inl rfl)⟩

/-- C5 counterexample: `<%` contains an incomplete escape (the trailing
`%`), but the query validator rejects it for the invalid character `<`
reached first, with an error that does not match `ErrInvalidEscaping`. -/
theorem invalid_char_before_incomplete_escape :
    ContainsIncompleteEscape (mkStr "<%") ∧
    ∃ e, validateQuery noHighRunes (mkStr "<%") = some e ∧
      e.is .invalidEscaping = false := by
  constructor
  · exact ⟨[0x3C], [], rfl, Or.inl rfl⟩
  · exact ⟨errorsJoin errInvalidQuery plainErr, by decide, by decide⟩

end GoUri

namespace GoUri

theorem firstErrorOf_none_cons (l : List (Option Err)) :
    firstErrorOf (none :: l) = firstErrorOf l := rfl

theorem firstErrorOf_some_cons (e : Err) (l : List (Option Err)) :
    firstErrorOf (some e :: l) = some e := rfl

theorem vfs_userinfo_err (T : HighRuneClasses) (a : Authority) (o : Options)
    (ip : IpType) :
    (validateForSchemeUserInfo T a o ip).2 =
      firstErrorOf [if !a.userinfo.isEmpty && hasFlag o flagValidateUserInfo
        then validateUserInfo T a.userinfo else none] := by
  unfold validateForSchemeUserInfo
  split
  · cases h : validateUserInfo T a.userinfo <;> rfl
  · rfl

theorem vfs_rest_err (T : HighRuneClasses) (a : Authority) (s : Str)
    (o : Options) (ip : IpType) :
    (validateForSchemeRest T a s o ip).2 =
      firstErrorOf
        [if !a.port.isEmpty && hasFlag o flagValidatePort then
          validatePort a.port a.host else none,
        if !a.userinfo.isEmpty && hasFlag o flagValidateUserInfo then
          validateUserInfo T a.userinfo else none] := by
  unfold validateForSchemeRest
  split
  · cases h : validatePort a.port a.host
    · show (validateForSchemeUserInfo T a o ip).2 = _
      rw [firstErrorOf_none_cons, vfs_userinfo_err]
    · rfl
  · rw [firstErrorOf_none_cons, vfs_userinfo_err]

theorem vfs_host_err (T : HighRuneClasses) (a : Authority) (s : Str)
    (o : Options) :
    (validateForSchemeHost T a s o).2 =
      firstErrorOf
        [if !a.host.isEmpty && hasFlag o flagValidateHost then
          (validateHost T a.host a.ip.isIPv6 s).2 else none,
        if !a.port.isEmpty && hasFlag o flagValidatePort then
          validatePort a.port a.host else none,
        if !a.userinfo.isEmpty && hasFlag o flagValidateUserInfo then
          validateUserInfo T a.userinfo else none] := by
  unfold validateForSchemeHost
  split
  · rcases h : validateHost T a.host a.ip.isIPv6 s with ⟨ip', oe⟩
    cases oe
    · show (validateForSchemeRest T a s o ip').2 = _
      rw [vfs_rest_err]
      rfl
    · rfl
  · rw [firstErrorOf_none_cons, vfs_rest_err]

theorem vfs_err (T : HighRuneClasses) (a : Authority) (s : Str)
    (o : Options) :
    (validateForScheme T a s o).2 =
      firstErrorOf
        [if !a.path.isEmpty && hasFlag o flagValidatePath then
          validatePath T a a.path else none,
        if !a.host.isEmpty && hasFlag o flagValidateHost then
          (validateHost T a.host a.ip.isIPv6 s).2 else none,
        if !a.port.isEmpty && hasFlag o flagValidatePort then
          validatePort a.port a.host else none,
        if !a.userinfo.isEmpty && hasFlag o flagValidateUserInfo then
          validateUserInfo T a.userinfo else none] := by
  unfold validateForScheme
  split
  · cases h : validatePath T a a.path
    · show (validateForSchemeHost T a s o).2 = _
      rw [firstErrorOf_none_cons, vfs_host_err]
    · rfl
  · rw [firstErrorOf_none_cons, vfs_host_err]

theorem validate_auth_err (T : HighRuneClasses) (u : URI) (o : Options) :
    (URI.validateAuth T u o).2 =
      firstErrorOf (List.drop 3 (componentChecks T u o)) := by
  unfold URI.validateAuth componentChecks
  by_cases hh : u.hierPart.isEmpty
  · rw [if_neg (by simp [hh])]
    simp [hh, firstErrorOf]
  · rw [if_pos (by simp [hh])]
    rw [vfs_err]
    simp [hh]

theorem validate_frag_err (T : HighRuneClasses) (u : URI) (o : Options) :
    (URI.validateFrag T u o).2 =
      firstErrorOf (List.drop 2 (componentChecks T u o)) := by
  unfold URI.validateFrag
  have hcc : List.drop 2 (componentChecks T u o) =
      (if !u.fragment.isEmpty && hasFlag o flagValidateFragment then
        validateFragment T u.fragment else none) ::
      List.drop 3 (componentChecks T u o) := rfl
  rw [hcc]
  split
  · cases h : validateFragment T u.fragment
    · show (URI.validateAuth T u o).2 = _
      rw [firstErrorOf_none_cons, validate_auth_err]
    · rfl
  · rw [firstErrorOf_none_cons, validate_auth_err]

theorem validate_qf_err (T : HighRuneClasses) (u : URI) (o : Options) :
    (URI.validateQF T u o).2 =
      firstErrorOf (List.drop 1 (componentChecks T u o)) := by
  unfold URI.validateQF
  have hcc : List.drop 1 (componentChecks T u o) =
      (if !u.query.isEmpty && hasFlag o flagValidateQuery then
        validateQuery T u.query else none) ::
      List.drop 2 (componentChecks T u o) := rfl
  rw [hcc]
  split
  · cases h : validateQuery T u.query
    · show (URI.validateFrag T u o).2 = _
      rw [firstErrorOf_none_cons, validate_frag_err]
    · rfl
  · rw [firstErrorOf_none_cons, validate_frag_err]

theorem validate_errs (T : HighRuneClasses) (u : URI) (o : Options) :
    (URI.validate T u o).2 = firstErrorOf (componentChecks T u o) := by
  unfold URI.validate
  have hcc : componentChecks T u o =
      (if !u.scheme.isEmpty && hasFlag o flagValidateScheme then
        validateScheme u.scheme else none) ::
      List.drop 1 (componentChecks T u o) := rfl
  rw [hcc]
  split
  · cases h : validateScheme u.scheme
    · show (URI.validateQF T u o).2 = _
      rw [firstErrorOf_none_cons, validate_qf_err]
    · rfl
  · rw [firstErrorOf_none_cons, validate_qf_err]

end GoUri

namespace GoUri

/-- C3: validation reports the first offending component in the canonical
order scheme, query, fragment, path, host, port, userinfo:
`URI.validate` (and hence the epilogue of every decomposing `parse`
branch, whose returned error is the validate result) returns exactly the
first error of the per-component checks in that order, and the parse
result embeds the returned error. -/
theorem validate_first_component_error (T : HighRuneClasses) (u : URI)
    (o : Options) (raw : Str) :
    (URI.validate T u o).2 = firstErrorOf (componentChecks T u o) ∧
    (finishWithAuthErr T u o).2 = firstErrorOf (componentChecks T u o) ∧
    (finishNoAuthErr T u o).2 = firstErrorOf (componentChecks T u o) ∧
    (parse T raw o).2 = (parse T raw o).1.err :=
  ⟨validate_errs T u o, validate_errs T u o, validate_errs T u o,
    (parse_err_eq T raw o).symm⟩

end GoUri

namespace GoUri

theorem indexByte_append_not_in (s t : Str) (c : Nat)
    (h : ∀ b ∈ s, b ≠ c) :
    indexByte (s ++ t) c =
      if indexByte t c = -1 then -1 else indexByte t c + s.length := by
  unfold indexByte
  rw [List.findIdx?_append]
  have hs : s.findIdx? (· == c) = none := by
    rw [List.findIdx?_eq_none_iff]
    intro x hx
    simpa using h x hx
  rw [hs]
  cases ht : t.findIdx? (· == c) with
  | none => simp
  | some n =>
    rw [if_neg (by simp)]
    simp [Option.or]

theorem indexByte_cons_self (c : Nat) (t : Str) :
    indexByte (c :: t) c = 0 := by
  unfold indexByte
  rw [List.findIdx?_cons]
  simp

end GoUri

namespace GoUri

theorem validateScheme_none_facts (scheme : Str)
    (h : validateScheme scheme = none) :
    2 ≤ scheme.length ∧ ∀ b ∈ scheme, b ≠ colonMark ∧ b ≠ questionMark ∧
      b ≠ fragmentMark ∧ b ≠ slashMark := by
  unfold validateScheme at h
  by_cases hl : scheme.length < 2
  · rw [if_pos hl] at h
    exact absurd h (by simp)
  · rw [if_neg hl] at h
    cases scheme with
    | nil => simp at hl
    | cons c rest =>
      have h' : (if !isASCIILetter c then
          some (errorsJoin errInvalidScheme plainErr)
        else if rest.all (fun b =>
            isDigit b || isASCIILetter b || b == 0x2B || b == 0x2D ||
            b == 0x2E) then none
        else some (errorsJoin errInvalidScheme plainErr)) = none := h
      by_cases hc : isASCIILetter c = true
      · rw [if_neg (by simp [hc])] at h'
        by_cases hall : rest.all (fun b =>
            isDigit b || isASCIILetter b || b == 0x2B || b == 0x2D ||
            b == 0x2E) = true
        · refine ⟨by omega, ?_⟩
          intro b hb
          rcases List.mem_cons.mp hb with rfl | hbr
          · unfold isASCIILetter at hc
            unfold colonMark questionMark fragmentMark slashMark
            simp only [Bool.or_eq_true, Bool.and_eq_true, decide_eq_true_eq]
              at hc
            omega
          · have hP := List.all_eq_true.mp hall b hbr
            unfold isDigit isASCIILetter at hP
            unfold colonMark questionMark fragmentMark slashMark
            simp only [Bool.or_eq_true, Bool.and_eq_true, beq_iff_eq,
              decide_eq_true_eq] at hP
            omega
        · rw [if_neg hall] at h'
          exact absurd h' (by simp)
      · rw [if_pos (by simp [hc])] at h'
        exact absurd h' (by simp)

theorem substr_after_scheme (scheme tail : Str) (c : Nat) :
    substr (scheme ++ c :: tail) ((scheme.length : Int) + 1)
      (((scheme ++ c :: tail).length : Int)) = tail := by
  unfold substr
  have h1 : (((scheme.length : Int)) + 1).toNat = scheme.length + 1 := by
    omega
  rw [h1]
  have h2 : (scheme ++ c :: tail).drop (scheme.length + 1) = tail := by
    rw [List.drop_append]
    rfl
  rw [h2]
  apply List.take_of_length_le
  simp
  omega

end GoUri


namespace GoUri

set_option maxHeartbeats 1000000 in
theorem parse_scheme_colon_tail (T : HighRuneClasses) (o : Options)
    (scheme tail : Str) (A : Authority)
    (hlen : 2 ≤ scheme.length)
    (hbytes : ∀ b ∈ scheme, b ≠ colonMark ∧ b ≠ questionMark ∧
      b ≠ fragmentMark ∧ b ≠ slashMark)
    (hqt : indexByte (colonMark :: tail) questionMark = -1)
    (hft : indexByte (colonMark :: tail) fragmentMark = -1)
    (htne : tail ≠ [])
    (hpa : parseAuthority tail = (A, none)) :
    parse T (scheme ++ colonMark :: tail) o =
      finishWithAuthErr T
        { scheme := scheme, hierPart := tail, authority := A } o := by
  have hcol : indexByte (scheme ++ colonMark :: tail) colonMark =
      (scheme.length : Int) := by
    rw [indexByte_append_not_in scheme (colonMark :: tail) colonMark
      (fun b hb => (hbytes b hb).1)]
    rw [indexByte_cons_self]
    norm_num
  have hq : indexByte (scheme ++ colonMark :: tail) questionMark = -1 := by
    rw [indexByte_append_not_in scheme (colonMark :: tail) questionMark
      (fun b hb => (hbytes b hb).2.1)]
    rw [hqt]
    norm_num
  have hf : indexByte (scheme ++ colonMark :: tail) fragmentMark = -1 := by
    rw [indexByte_append_not_in scheme (colonMark :: tail) fragmentMark
      (fun b hb => (hbytes b hb).2.2.1)]
    rw [hft]
    norm_num
  have hlraw : ((scheme ++ colonMark :: tail).length : Int) =
      (scheme.length : Int) + 1 + (tail.length : Int) := by
    simp
    omega
  have htl : 1 ≤ tail.length := by
    cases tail
    · exact absurd rfl htne
    · simp
  unfold parse
  rw [hcol, hq, hf]
  rw [if_neg (by omega), if_neg (by omega), if_neg (by omega),
    if_neg (by omega), if_neg (by omega)]
  unfold parseSwitch
  have hpfx : hasPfx (scheme ++ colonMark :: tail) authorityPfx = false := by
    cases scheme with
    | nil => simp at hlen
    | cons b rest =>
      have hb : b ≠ slashMark := (hbytes b (List.mem_cons_self b rest)).2.2.2
      unfold slashMark at hb
      unfold hasPfx authorityPfx
      show List.isPrefixOf [0x2F, 0x2F]
        (b :: (rest ++ colonMark :: tail)) = false
      simp [List.isPrefixOf]
      omega
  rw [if_pos ⟨by omega, by simp [hpfx]⟩]
  rw [if_neg (by omega)]
  have hsub : substrTo (scheme ++ colonMark :: tail)
      ((scheme.length : Int)) = scheme := by
    unfold substrTo
    rw [show ((scheme.length : Int)).toNat = scheme.length from by omega]
    exact List.take_left scheme (colonMark :: tail)
  rw [hsub]
  unfold parseStage2
  rw [if_pos (Or.inr ⟨by omega, by omega⟩)]
  rw [if_pos (show (-1 : Int) < 0 by omega)]
  unfold parseNoFragment
  rw [substr_after_scheme]
  rw [hpa]

end GoUri

namespace GoUri

set_option maxHeartbeats 1000000 in
/-- C10: host validation is skipped for an empty host.
`Authority.validateForScheme`'s host step reduces to the port/userinfo
steps whenever the decomposed host is empty (so an empty host is never
submitted to the IP, DNS or registered-name validators), and inputs
carrying an authority prefix with an empty host — `scheme://` and
`scheme:///path` — parse successfully under every scheme that passes
scheme validation. -/
theorem empty_host_skips_host_validation (T : HighRuneClasses)
    (a : Authority) (s : Str) (o : Options) (scheme : Str)
    (hhost : a.host = [])
    (hsch : validateScheme scheme = none) :
    validateForSchemeHost T a s o = validateForSchemeRest T a s o {} ∧
    (Parse T (scheme ++ mkStr "://") []).2 = none ∧
    (Parse T (scheme ++ mkStr ":///path") []).2 = none := by
  obtain ⟨hlen, hbytes⟩ := validateScheme_none_facts scheme hsch
  have hse : scheme.isEmpty = false := by
    cases scheme
    · simp at hlen
    · rfl
  refine ⟨?_, ?_, ?_⟩
  · unfold validateForSchemeHost
    rw [if_neg (by rw [hhost]; simp)]
  · show (parse T (scheme ++ colonMark :: [0x2F, 0x2F])
      (applyURIOptions [])).2 = none
    rw [parse_scheme_colon_tail T (applyURIOptions []) scheme [0x2F, 0x2F]
      { pfx := [0x2F, 0x2F] } hlen hbytes (by decide) (by decide)
      (by simp) (by rfl)]
    show (URI.validate T
        { scheme := scheme, hierPart := [0x2F, 0x2F],
          authority := { pfx := [0x2F, 0x2F] } }
        (applyURIOptions [])).2 = none
    unfold URI.validate
    rw [if_pos (by dsimp only; rw [hse]; decide)]
    rw [hsch]
    show (URI.validateQF T
        { scheme := scheme, hierPart := [0x2F, 0x2F],
          authority := { pfx := [0x2F, 0x2F] } }
        (applyURIOptions [])).2 = none
    unfold URI.validateQF URI.validateFrag URI.validateAuth
    rw [if_neg (by dsimp only; decide), if_neg (by dsimp only; decide),
      if_pos (by dsimp only; decide)]
    unfold validateForScheme validateForSchemeHost validateForSchemeRest
      validateForSchemeUserInfo
    rw [if_neg (by dsimp only; decide), if_neg (by dsimp only; decide),
      if_neg (by dsimp only; decide), if_neg (by dsimp only; decide)]
  · show (parse T (scheme ++ colonMark :: [0x2F, 0x2F, 0x2F, 0x70, 0x61,
      0x74, 0x68]) (applyURIOptions [])).2 = none
    rw [parse_scheme_colon_tail T (applyURIOptions []) scheme
      [0x2F, 0x2F, 0x2F, 0x70, 0x61, 0x74, 0x68]
      { pfx := [0x2F, 0x2F], path := [0x2F, 0x70, 0x61, 0x74, 0x68] }
      hlen hbytes (by decide) (by decide) (by simp) (by rfl)]
    show (URI.validate T
        { scheme := scheme,
          hierPart := [0x2F, 0x2F, 0x2F, 0x70, 0x61, 0x74, 0x68],
          authority :=
            { pfx := [0x2F, 0x2F],
              path := [0x2F, 0x70, 0x61, 0x74, 0x68] } }
        (applyURIOptions [])).2 = none
    unfold URI.validate
    rw [if_pos (by dsimp only; rw [hse]; decide)]
    rw [hsch]
    show (URI.validateQF T
        { scheme := scheme,
          hierPart := [0x2F, 0x2F, 0x2F, 0x70, 0x61, 0x74, 0x68],
          authority :=
            { pfx := [0x2F, 0x2F],
              path := [0x2F, 0x70, 0x61, 0x74, 0x68] } }
        (applyURIOptions [])).2 = none
    unfold URI.validateQF URI.validateFrag URI.validateAuth
    rw [if_neg (by dsimp only; decide), if_neg (by dsimp only; decide),
      if_pos (by dsimp only; decide)]
    unfold validateForScheme
    rw [if_pos (by dsimp only; decide)]
    have hvp : validatePath T
        { pfx := [0x2F, 0x2F], path := [0x2F, 0x70, 0x61, 0x74, 0x68] }
        (Authority.path
          { pfx := [0x2F, 0x2F],
            path := [0x2F, 0x70, 0x61, 0x74, 0x68] }) = none := rfl
    rw [hvp]
    show (validateForSchemeHost T
        { pfx := [0x2F, 0x2F], path := [0x2F, 0x70, 0x61, 0x74, 0x68] }
        scheme (applyURIOptions [])).2 = none
    unfold validateForSchemeHost validateForSchemeRest
      validateForSchemeUserInfo
    rw [if_neg (by dsimp only; decide), if_neg (by dsimp only; decide),
      if_neg (by dsimp only; decide)]

/-- Witness for `empty_host_skips_host_validation` at the empty authority,
scheme `http`, and the default options. -/
theorem empty_host_skips_host_validation_witness :
    ({} : Authority).host = [] ∧ validateScheme (mkStr "http") = none ∧
    (validateForSchemeHost noHighRunes {} [] packageLevelDefaults =
        validateForSchemeRest noHighRunes {} [] packageLevelDefaults {} ∧
      (Parse noHighRunes (mkStr "http" ++ mkStr "://") []).2 = none ∧
      (Parse noHighRunes (mkStr "http" ++ mkStr ":///path") []).2 = none) :=
  ⟨rfl, by decide, empty_host_skips_host_validation noHighRunes {} []
    packageLevelDefaults (mkStr "http") rfl (by decide)⟩

end GoUri

namespace GoUri

set_option maxHeartbeats 1000000 in
/-- C7 (amended): the DNS label character rules, as implemented.  The
first scalar of a label, after percent-decoding, must be a **Unicode**
letter (`unicode.IsLetter`), not merely an ASCII letter; every subsequent
scalar must be a Unicode letter, digit or `-`; at a (possibly escaped)
`.` separator, and at the end of the host, the last scalar of the label
must be a letter or digit; the resulting errors carry the
`invalidDNSName` kind, except an incomplete escape at the very start of a
label, which reports only `invalidEscaping`. -/
theorem dns_label_rules (T : HighRuneClasses) (s rem : Str)
    (consumed last r k f : Nat) :
    (validateFirstRuneInSegment T s = (r, k, none) →
      uniIsLetter T r = true) ∧
    (∀ e, (validateFirstRuneInSegment T s).2.2 = some e →
      e.is .invalidDNSName = true ∨
      (e.is .invalidEscaping = true ∧ e.is .invalidDNSName = false)) ∧
    (r ≠ dotSeparator → consumed ≤ maxSegmentLength →
      (hostSegCheck T rem consumed last r = none ↔
        (uniIsLetter T r || uniIsDigit T r || r == 0x2D) = true)) ∧
    (r = dotSeparator → rem ≠ [] →
      (hostSegCheck T rem consumed last r = some (r, consumed, none) ↔
        (uniIsLetter T last || uniIsDigit T last) = true)) ∧
    (hostSegLoop T f [] consumed last true =
      (if !uniIsLetter T last && !uniIsDigit T last then
        (runeError, 0, some (errorsJoin errInvalidDNSName plainErr))
      else (last, consumed, none))) := by
  refine ⟨?_, ?_, ?_, ?_, ?_⟩
  · intro h
    unfold validateFirstRuneInSegment at h
    split_ifs at h with h1 h2 h3 h4
    · simp at h
    · simp at h
    · split at h
      · simp at h
      · split at h
        · simp at h
        · split at h
          · simp at h
          · rename_i hnl
            simp only [Prod.mk.injEq] at h
            rw [← h.1]
            simpa using hnl
    · simp at h
    · simp only [Prod.mk.injEq] at h
      rw [← h.1]
      simpa using h4
  · intro e h
    unfold validateFirstRuneInSegment at h
    split_ifs at h with h1 h2 h3 h4
    · have h' : some (errorsJoin errInvalidDNSName plainErr) = some e := h
      rw [Option.some.injEq] at h'
      subst h'
      left
      decide
    · have h' : some (errorsJoin errInvalidDNSName plainErr) = some e := h
      rw [Option.some.injEq] at h'
      subst h'
      left
      decide
    · split at h
      · have h' : some (errorsJoin errInvalidEscaping plainErr) =
            some e := h
        rw [Option.some.injEq] at h'
        subst h'
        right
        constructor <;> decide
      · split at h
        · rename_i e' heq
          have h' : some (errorsJoin errInvalidDNSName
              (errorsJoin errInvalidEscaping e')) = some e := h
          rw [Option.some.injEq] at h'
          subst h'
          left
          simp [Err.is, errorsJoin, errInvalidDNSName, sentinel]
        · split at h
          · have h' : some (errorsJoin errInvalidDNSName plainErr) =
                some e := h
            rw [Option.some.injEq] at h'
            subst h'
            left
            decide
          · simp at h
    · have h' : some (errorsJoin errInvalidDNSName plainErr) = some e := h
      rw [Option.some.injEq] at h'
      subst h'
      left
      decide
  · intro hdot hcons
    unfold hostSegCheck
    rw [if_neg hdot, if_neg (by unfold maxSegmentLength at hcons ⊢; omega)]
    cases hL : uniIsLetter T r <;> cases hD : uniIsDigit T r <;>
      by_cases hdash : r = 0x2D <;>
      simp [hL, hD, hdash]
  · intro hdot hne
    subst hdot
    unfold hostSegCheck
    rw [if_pos rfl, if_neg (by
      cases rem
      · exact absurd rfl hne
      · simp)]
    cases hL : uniIsLetter T last <;> cases hD : uniIsDigit T last <;>
      simp [hL, hD, runeError, dotSeparator]
  · cases f <;> rfl

end GoUri

namespace GoUri

/-- C7 counterexample: the single-label host `é` decodes to the scalar
U+00E9, which is a Unicode letter but not an ASCII letter, as the first
scalar of its label — a violation of the claim's ASCII-letter rule — yet
DNS host validation accepts the host. -/
theorem dns_accepts_non_ascii_letter_label :
    validateDNSHostForScheme noHighRunes (mkStr "é") = none ∧
    decodeHostScalars (mkStr "é") = some [0xE9] ∧
    isASCIILetter 0xE9 = false ∧ uniIsLetter noHighRunes 0xE9 = true :=
  ⟨by decide, by decide, by decide, by decide⟩

/-- Witness for `dns_label_rules`: the first-rune rule applied to the
segment `a`, and the subsequent-rune rule applied to the rune `b` after
one consumed byte. -/
theorem dns_label_rules_witness :
    uniIsLetter noHighRunes 0x62 = true ∧
    hostSegCheck noHighRunes (mkStr "c") 2 0x62 0x62 = none :=
  ⟨(dns_label_rules noHighRunes (mkStr "b") (mkStr "c") 2 0x62 0x62 1
      0).1 (by decide),
    ((dns_label_rules noHighRunes (mkStr "b") (mkStr "c") 2 0x62 0x62 1
      0).2.2.1 (by decide) (by decide)).mpr (by decide)⟩

end GoUri
